import Mathlib

/-!
Verification development for the spike-interpreter-go repository.

The repository's `code` package (opcode values, operand widths, the `Make`
encoder), its `object` package (beyond `array.go`), its symbol table and the
bulk of its `ast` package are not part of the given sources; those parts are
modelled from the specification and marked as such in their doc comments.
Everything else is a shallow embedding of the Go sources:
  * the VM of `src/spike/object/array.go` (package vm),
  * the compiler of `src/unnamed/part_000` (package compiler).

Machine integers (Go `int64`) are modelled as `Int` with explicit wrapping
modulo 2^64 where Go wraps.  Go panics (failed type assertions, index out of
range, division by zero) are modelled as distinct error constructors, kept
apart from the `error` values the Go functions return.
-/

namespace Spike

/-- Modelled from the spec: the `code` package is not under src; opcode byte
values are assigned in the order of the spec's opcode table (§4.E). -/
def opConstant : Nat := 0
/-- Modelled from the spec (§4.E). -/
def opPop : Nat := 1
/-- Modelled from the spec (§4.E). -/
def opAdd : Nat := 2
/-- Modelled from the spec (§4.E). -/
def opSub : Nat := 3
/-- Modelled from the spec (§4.E). -/
def opMul : Nat := 4
/-- Modelled from the spec (§4.E). -/
def opDiv : Nat := 5
/-- Modelled from the spec (§4.E). -/
def opTrue : Nat := 6
/-- Modelled from the spec (§4.E). -/
def opFalse : Nat := 7
/-- Modelled from the spec (§4.E). -/
def opEqual : Nat := 8
/-- Modelled from the spec (§4.E). -/
def opNotEqual : Nat := 9
/-- Modelled from the spec (§4.E). -/
def opGreaterThan : Nat := 10
/-- Modelled from the spec (§4.E). -/
def opBang : Nat := 11
/-- Modelled from the spec (§4.E). -/
def opMinus : Nat := 12
/-- Modelled from the spec (§4.E). -/
def opJump : Nat := 13
/-- Modelled from the spec (§4.E). -/
def opJumpNotTrue : Nat := 14
/-- Modelled from the spec (§4.E). -/
def opNull : Nat := 15
/-- Modelled from the spec (§4.E). -/
def opSetGlobal : Nat := 16
/-- Modelled from the spec (§4.E). -/
def opGetGlobal : Nat := 17
/-- Modelled from the spec (§4.E). -/
def opSetLocal : Nat := 18
/-- Modelled from the spec (§4.E). -/
def opGetLocal : Nat := 19
/-- Modelled from the spec (§4.E). -/
def opGetBuiltin : Nat := 20
/-- Modelled from the spec (§4.E). -/
def opGetFreeVar : Nat := 21
/-- Modelled from the spec (§4.E). -/
def opArray : Nat := 22
/-- Modelled from the spec (§4.E). -/
def opHash : Nat := 23
/-- Modelled from the spec (§4.E). -/
def opIndex : Nat := 24
/-- Modelled from the spec (§4.E). -/
def opCall : Nat := 25
/-- Modelled from the spec (§4.E). -/
def opReturnValue : Nat := 26
/-- Modelled from the spec (§4.E). -/
def opReturn : Nat := 27
/-- Modelled from the spec (§4.E). -/
def opClosure : Nat := 28
/-- Modelled from the spec (§4.E). -/
def opCurrentClosure : Nat := 29

/-- Modelled from the spec (§4.E): per-opcode operand widths in bytes.
`Closure` takes a u16 and a u8; jumps, constant/global indices, `Array` and
`Hash` counts are u16; local/builtin/free indices and `Call` argc are u8. -/
def opWidths (op : Nat) : List Nat :=
  if op = opConstant ∨ op = opJump ∨ op = opJumpNotTrue ∨ op = opSetGlobal ∨
     op = opGetGlobal ∨ op = opArray ∨ op = opHash then [2]
  else if op = opSetLocal ∨ op = opGetLocal ∨ op = opGetBuiltin ∨
     op = opGetFreeVar ∨ op = opCall then [1]
  else if op = opClosure then [2, 1]
  else []

/-- Big-endian bytes of a Go `uint16(v)` conversion of an `int` operand. -/
def u16bytes (v : Int) : List Nat :=
  [((v.emod 65536).toNat) / 256, (v.emod 256).toNat]

/-- The single byte of a Go `byte(v)` conversion of an `int` operand. -/
def u8byte (v : Int) : Nat := (v.emod 256).toNat

/-- Modelled from the spec (§4.E): `code.Make` encodes an opcode byte followed
by its operands, each in the width given by the opcode's definition,
big-endian. -/
def make (op : Nat) (operands : List Int) : List Nat :=
  op :: (((opWidths op).zip operands).flatMap
    (fun wv => if wv.1 = 2 then u16bytes wv.2 else [u8byte wv.2]))

/-! ## Runtime objects

The `object` packages are only partially under src (`array.go`).  The value
variants and their type tags follow the spec's data model (§3); `nilO` is the
zero value of the Go `object.Object` interface, which is what uninitialized
stack slots hold. -/

/-- Runtime value.  `compiledFunction` carries instructions, locals count and
parameters count as in the spec's data model (§3). -/
inductive VObj where
  | nilO : VObj
  | integer (value : Int) : VObj
  | boolean (value : Bool) : VObj
  | strO (value : String) : VObj
  | compiledFunction (instructions : List Nat) (localsCount parametersCount : Nat) : VObj
deriving DecidableEq, Repr

/-- Runtime type tag, the result of the Go `Object.Type()` method. -/
inductive ObjType where
  | integerT | booleanT | stringT | functionT
deriving DecidableEq, Repr

/-- `Object.Type()`.  Calling it on the nil interface value would be a Go nil
dereference panic, modelled as `none`. -/
def vtype : VObj → Option ObjType
  | .nilO => none
  | .integer _ => some .integerT
  | .boolean _ => some .booleanT
  | .strO _ => some .stringT
  | .compiledFunction _ _ _ => some .functionT

/-- Errors surfaced by the VM.  Constructors starting with `panic` model Go
runtime panics (failed type assertions, out-of-range indexing, division by
zero); the others model `error` values returned by `Run`.  The Go message for
`cmpMismatch l r` is "both operands must have same type, had: <l> and <r>";
for `unableToCompare l r` it is "unable to compare variables of type <l> and
<r>"; for `unexpectedOperation op` it is "unexpected operation: <op>";
`stackOverflow` is "stack overflow". -/
inductive VmError where
  | stackOverflow : VmError
  | cmpMismatch (left right : ObjType) : VmError
  | unableToCompare (left right : ObjType) : VmError
  | unexpectedOperation (op : Nat) : VmError
  | panicNotInteger : VmError
  | panicNotBoolean : VmError
  | panicNilType : VmError
  | panicIndexOutOfRange : VmError
  | panicSliceBounds : VmError
  | panicStackUnderflow : VmError
  | panicDivByZero : VmError
deriving DecidableEq, Repr

/-- `const StackSize = 2048` (array.go line 57). -/
def StackSize : Nat := 2048

/-- The mutable part of the VM: the pre-sized operand stack and the stack
pointer (array.go `VM.stack`, `VM.sp`). -/
structure VmState where
  stack : List VObj
  sp : Nat
deriving DecidableEq, Repr

/-- `VM.push` (array.go lines 208-217): error "stack overflow" when
`sp >= StackSize`, otherwise store at `stack[sp]` and increment `sp`.
Writing past the end of the stack slice would be a Go panic. -/
def VmState.push (s : VmState) (o : VObj) : Except VmError VmState :=
  if StackSize ≤ s.sp then .error .stackOverflow
  else if s.sp < s.stack.length then
    .ok ⟨s.stack.set s.sp o, s.sp + 1⟩
  else .error .panicIndexOutOfRange

/-- `VM.pop` (array.go lines 219-223): reads `stack[sp-1]` and decrements
`sp`; popping with `sp = 0` (or past the slice) is a Go index panic. -/
def VmState.pop (s : VmState) : Except VmError (VObj × VmState) :=
  if s.sp = 0 then .error .panicStackUnderflow
  else match s.stack[s.sp - 1]? with
    | some o => .ok (o, ⟨s.stack, s.sp - 1⟩)
    | none => .error .panicIndexOutOfRange

/-- The Go type assertion `o.(*object.Integer).Value`; panics on any other
variant. -/
def assertInteger : VObj → Except VmError Int
  | .integer v => .ok v
  | _ => .error .panicNotInteger

/-- The Go type assertion `o.(*object.Boolean).Value`. -/
def assertBoolean : VObj → Except VmError Bool
  | .boolean v => .ok v
  | _ => .error .panicNotBoolean

/-- Wrap an integer into the Go `int64` range (two's complement). -/
def wrap64 (v : Int) : Int := (v + 2 ^ 63).emod (2 ^ 64) - 2 ^ 63

/-- The arithmetic of `executeBinaryIntegerOperation`'s switch (array.go lines
133-143): the four operations on Go `int64` values; an opcode outside the four
leaves `result` at its zero value 0; Go division truncates toward zero, wraps
on `MinInt64 / -1`, and panics on a zero divisor. -/
def goIntBinop (op : Nat) (l r : Int) : Except VmError Int :=
  if op = opAdd then .ok (wrap64 (l + r))
  else if op = opSub then .ok (wrap64 (l - r))
  else if op = opMul then .ok (wrap64 (l * r))
  else if op = opDiv then
    if r = 0 then .error .panicDivByZero else .ok (wrap64 (Int.tdiv l r))
  else .ok 0

/-- `VM.executeBinaryIntegerOperation` (array.go lines 127-145): pop right,
pop left, type-assert both to `*object.Integer`, compute, push the Integer
result. -/
def executeBinaryIntegerOperation (op : Nat) (s : VmState) : Except VmError VmState := do
  let (right, s) ← s.pop
  let (left, s) ← s.pop
  let leftValue ← assertInteger left
  let rightValue ← assertInteger right
  let result ← goIntBinop op leftValue rightValue
  s.push (.integer result)

/-- `VM.executeIntegerComparison` (array.go lines 166-180). -/
def executeIntegerComparison (left right : VObj) (op : Nat) (s : VmState) :
    Except VmError VmState := do
  let leftInt ← assertInteger left
  let rightInt ← assertInteger right
  if op = opEqual then s.push (.boolean (leftInt = rightInt))
  else if op = opNotEqual then s.push (.boolean (leftInt ≠ rightInt))
  else if op = opGreaterThan then s.push (.boolean (rightInt < leftInt))
  else .error (.unexpectedOperation op)

/-- `VM.executeBooleanComparison` (array.go lines 182-194). -/
def executeBooleanComparison (left right : VObj) (op : Nat) (s : VmState) :
    Except VmError VmState := do
  let leftBool ← assertBoolean left
  let rightBool ← assertBoolean right
  if op = opEqual then s.push (.boolean (leftBool = rightBool))
  else if op = opNotEqual then s.push (.boolean (leftBool ≠ rightBool))
  else .error (.unexpectedOperation op)

/-- `VM.executeComparison` (array.go lines 147-164): pop right, pop left;
error "both operands must have same type" on a type mismatch; dispatch to the
integer or boolean comparison; otherwise error "unable to compare variables of
type <l> and <r>". -/
def executeComparison (op : Nat) (s : VmState) : Except VmError VmState := do
  let (right, s) ← s.pop
  let (left, s) ← s.pop
  let rt ← match vtype right with
    | some t => pure t
    | none => .error .panicNilType
  let lt ← match vtype left with
    | some t => pure t
    | none => .error .panicNilType
  if rt ≠ lt then .error (.cmpMismatch lt rt)
  else if rt = .integerT then executeIntegerComparison left right op s
  else if rt = .booleanT then executeBooleanComparison left right op s
  else .error (.unableToCompare lt rt)

/-- `VM.Run`'s loop (array.go lines 81-125), from instruction pointer `ip`.
The `for` loop increments `ip` once per iteration; the `OpConstant` case adds
two more for its operand.  The switch has no default case: any opcode byte
outside the eleven handled ones falls through and the loop advances by one
byte.  `binary.BigEndian.Uint16` panics when fewer than two bytes remain. -/
def runFrom (constants : List VObj) (instructions : List Nat) (s : VmState)
    (ip : Nat) : Except VmError VmState :=
  if h : ip < instructions.length then
    let op := instructions.get ⟨ip, h⟩
    if op = opConstant then
      match instructions[ip + 1]?, instructions[ip + 2]? with
      | some b1, some b2 =>
        match constants[b1 * 256 + b2]? with
        | some c =>
          match s.push c with
          | .ok s1 => runFrom constants instructions s1 (ip + 3)
          | .error e => .error e
        | none => .error .panicIndexOutOfRange
      | _, _ => .error .panicSliceBounds
    else if op = opAdd ∨ op = opSub ∨ op = opMul ∨ op = opDiv then
      match executeBinaryIntegerOperation op s with
      | .ok s1 => runFrom constants instructions s1 (ip + 1)
      | .error e => .error e
    else if op = opEqual ∨ op = opNotEqual ∨ op = opGreaterThan then
      match executeComparison op s with
      | .ok s1 => runFrom constants instructions s1 (ip + 1)
      | .error e => .error e
    else if op = opTrue then
      match s.push (.boolean true) with
      | .ok s1 => runFrom constants instructions s1 (ip + 1)
      | .error e => .error e
    else if op = opFalse then
      match s.push (.boolean false) with
      | .ok s1 => runFrom constants instructions s1 (ip + 1)
      | .error e => .error e
    else if op = opPop then
      match s.pop with
      | .ok (_, s1) => runFrom constants instructions s1 (ip + 1)
      | .error e => .error e
    else runFrom constants instructions s (ip + 1)
  else .ok s
termination_by instructions.length - ip
decreasing_by all_goals omega

/-- `vm.New` (array.go lines 72-79): fresh 2048-slot stack of Go nil
interface values, `sp = 0`. -/
def vmNew : VmState := ⟨List.replicate StackSize .nilO, 0⟩

/-- `VM.Run` on a fresh VM built from a bytecode bundle's constants and
instructions. -/
def runMain (constants : List VObj) (instructions : List Nat) :
    Except VmError VmState :=
  runFrom constants instructions vmNew 0

/-- `VM.LastPoppedStackElement` (array.go lines 204-206): reads `stack[sp]`;
out of range would be a Go panic, modelled as `none`. -/
def lastPoppedStackElement (s : VmState) : Option VObj := s.stack[s.sp]?

/-! ## Syntax tree

Only `ExpressionStatement` of the `ast` package is under src; the remaining
node variants are modelled from the spec's data model (§3).  An `if` node's
branches and a function's body are `BlockStatement`s, modelled as statement
lists; a hash literal's Go `map` of pairs is modelled as a list of pairs in
one (arbitrary) enumeration order. -/

mutual
/-- Expression nodes (spec §3).  `pre`/`inf` are Prefix/Infix with their
operator lexeme. -/
inductive Expr where
  | ident (name : String) : Expr
  | int (value : Int) : Expr
  | str (value : String) : Expr
  | boolE (value : Bool) : Expr
  | pre (op : String) (right : Expr) : Expr
  | inf (op : String) (left right : Expr) : Expr
  | ifE (cond : Expr) (thenB : List Stmt) (elseB : Option (List Stmt)) : Expr
  | fnE (params : List String) (body : List Stmt) : Expr
  | call (fn : Expr) (args : List Expr) : Expr
  | arr (elements : List Expr) : Expr
  | hash (pairs : List (Expr × Expr)) : Expr
  | idx (arrE indexE : Expr) : Expr
deriving Repr

/-- Statement nodes (spec §3). -/
inductive Stmt where
  | letS (name : String) (value : Expr) : Stmt
  | ret (result : Expr) : Stmt
  | exprS (e : Expr) : Stmt
  | block (statements : List Stmt) : Stmt
deriving Repr
end

mutual
/-- Node count of an expression; termination measure for the compiler. -/
def esize : Expr → Nat
  | .ident _ => 1
  | .int _ => 1
  | .str _ => 1
  | .boolE _ => 1
  | .pre _ r => 1 + esize r
  | .inf _ l r => 1 + esize l + esize r
  | .ifE c t e => 1 + esize c + slsize t + (match e with
      | some b => slsize b
      | none => 0)
  | .fnE _ b => 1 + slsize b
  | .call f args => 1 + esize f + elsize args
  | .arr es => 1 + elsize es
  | .hash ps => 1 + plsize ps
  | .idx a i => 1 + esize a + esize i

/-- Node count of a statement. -/
def ssize : Stmt → Nat
  | .letS _ v => 1 + esize v
  | .ret r => 1 + esize r
  | .exprS e => 1 + esize e
  | .block ss => 1 + slsize ss

/-- Node count of a statement list. -/
def slsize : List Stmt → Nat
  | [] => 0
  | s :: ss => 1 + ssize s + slsize ss

/-- Node count of an expression list. -/
def elsize : List Expr → Nat
  | [] => 0
  | e :: es => 1 + esize e + elsize es

/-- Node count of a pair list. -/
def plsize : List (Expr × Expr) → Nat
  | [] => 0
  | p :: ps => 1 + esize p.1 + esize p.2 + plsize ps
end

mutual
/-- Modelled from the spec: the `String()` textual form of a node (§3, §8 and
the parser tests of part_000); only `ExpressionStatement.String` is under
src.  The compiler sorts hash keys by this form. -/
def exprString : Expr → String
  | .ident name => name
  | .int v => toString v
  | .str v => v
  | .boolE b => if b then "true" else "false"
  | .pre op r => "(" ++ op ++ exprString r ++ ")"
  | .inf op l r => "(" ++ exprString l ++ " " ++ op ++ " " ++ exprString r ++ ")"
  | .ifE c t e => "if" ++ exprString c ++ " " ++ stmtListString t ++ (match e with
      | some b => "else " ++ stmtListString b
      | none => "")
  | .fnE ps b => "fn(" ++ String.intercalate ", " ps ++ ") " ++ stmtListString b
  | .call f args => exprString f ++ "(" ++ exprListString args ++ ")"
  | .arr es => "[" ++ exprListString es ++ "]"
  | .hash ps => "\x7b" ++ pairListString ps ++ "\x7d"
  | .idx a i => "(" ++ exprString a ++ "[" ++ exprString i ++ "])"

/-- Textual form of a statement (modelled from the spec, §8). -/
def stmtString : Stmt → String
  | .letS n v => "let " ++ n ++ " = " ++ exprString v
  | .ret r => "return " ++ exprString r
  | .exprS e => exprString e
  | .block ss => stmtListString ss

/-- Concatenated textual form of a block's statements. -/
def stmtListString : List Stmt → String
  | [] => ""
  | s :: ss => stmtString s ++ stmtListString ss

/-- Comma-separated textual forms of an expression list. -/
def exprListString : List Expr → String
  | [] => ""
  | [e] => exprString e
  | e :: es => exprString e ++ ", " ++ exprListString es

/-- Comma-separated textual forms of a pair list. -/
def pairListString : List (Expr × Expr) → String
  | [] => ""
  | [p] => exprString p.1 ++ ":" ++ exprString p.2
  | p :: ps => exprString p.1 ++ ":" ++ exprString p.2 ++ ", " ++ pairListString ps
end

/-! ## Symbol table

Not under src; modelled from the spec (§4.F).  The chain of tables linked by
`Outer` pointers is represented as a list of frames, current table first; an
empty list stands for the nil pointer. -/

/-- One symbol scope (spec §3). -/
inductive SymbolScope where
  | global | localS | freeS | builtin | function
deriving DecidableEq, Repr

/-- A resolved symbol (spec §3). -/
structure Symbol where
  name : String
  scope : SymbolScope
  index : Nat
deriving DecidableEq, Repr

/-- One symbol-table node: its name map, local-definition counter and ordered
captured free-symbol list (spec §3). -/
structure Frame where
  store : List (String × Symbol)
  numDefinitions : Nat
  freeSymbols : List Symbol
deriving DecidableEq, Repr

/-- The chain of symbol tables, current first (`Outer` pointers). -/
abbrev SymbolTable := List Frame

/-- Go map read `store[name]`. -/
def storeLookup (store : List (String × Symbol)) (name : String) : Option Symbol :=
  match store.find? (fun p => p.1 = name) with
  | some p => some p.2
  | none => none

/-- Go map write `store[name] = sym` (replaces an existing binding). -/
def storeInsert (store : List (String × Symbol)) (name : String) (sym : Symbol) :
    List (String × Symbol) :=
  if store.any (fun p => p.1 = name) then
    store.map (fun p => if p.1 = name then (name, sym) else p)
  else store ++ [(name, sym)]

/-- Modelled from the spec (§4.F): `Define` assigns the next local index;
scope is Global in the outermost table, Local elsewhere; increments the
counter. -/
def define (t : SymbolTable) (name : String) : Symbol × SymbolTable :=
  match t with
  | [] => (⟨name, .global, 0⟩, [])
  | f :: rest =>
    let scope := if rest.isEmpty then SymbolScope.global else SymbolScope.localS
    let sym : Symbol := ⟨name, scope, f.numDefinitions⟩
    (sym, { f with store := storeInsert f.store name sym,
                   numDefinitions := f.numDefinitions + 1 } :: rest)

/-- Modelled from the spec (§4.F): `DefineBuiltin i name`; scope Builtin,
index `i`, counter untouched. -/
def defineBuiltin (t : SymbolTable) (i : Nat) (name : String) : SymbolTable :=
  match t with
  | [] => []
  | f :: rest =>
    { f with store := storeInsert f.store name ⟨name, .builtin, i⟩ } :: rest

/-- Modelled from the spec (§4.F): promotion of an enclosing-scope symbol to
a Free symbol — the *original* symbol is appended to the captured list, and
the promoted symbol (scope Free, index = its position in that list) is stored
and returned. -/
def defineFree (f : Frame) (original : Symbol) : Symbol × Frame :=
  let sym : Symbol := ⟨original.name, .freeS, f.freeSymbols.length⟩
  (sym, { f with store := storeInsert f.store original.name sym,
                 freeSymbols := f.freeSymbols ++ [original] })

/-- Modelled from the spec (§4.F): `Resolve` searches the current table, then
the outer chain; a Global or Builtin result is returned unchanged, any other
outer result is promoted to Free in the current table.  Go mutates the tables
in place, so the updated chain is returned alongside the symbol. -/
def resolve (t : SymbolTable) (name : String) : Option (Symbol × SymbolTable) :=
  match t with
  | [] => none
  | f :: rest =>
    match storeLookup f.store name with
    | some s => some (s, f :: rest)
    | none =>
      match resolve rest name with
      | none => none
      | some (s, rest') =>
        if s.scope = .global ∨ s.scope = .builtin then some (s, f :: rest')
        else
          let (sym, f') := defineFree f s
          some (sym, f' :: rest')

/-- Modelled from the spec (§6): the positional built-ins table. -/
def builtinNames : List String := ["len", "first", "last", "rest", "push", "puts"]

/-- The symbol table `compiler.New` starts from: a fresh global table with
every built-in defined at its position (part_000 lines 200-203). -/
def newSymbolTable : SymbolTable :=
  (List.range builtinNames.length).foldl
    (fun t i => defineBuiltin t i (builtinNames.getD i "")) [⟨[], 0, []⟩]

/-! ## Compiler

Shallow embedding of the compiler of part_000 (package compiler, lines
162-599).  The Go `scopes` array with `scopeIndex` always operating on its
last element is represented as the current scope plus the stack of enclosing
scopes (innermost first). -/

/-- `EmittedInstruction` (part_000 lines 174-177). -/
structure EmittedInstruction where
  opcode : Nat
  position : Nat
deriving DecidableEq, Repr

/-- `CompilationScope` (part_000 lines 179-183). -/
structure CompilationScope where
  instructions : List Nat
  lastInstruction : EmittedInstruction
  previousInstruction : EmittedInstruction
deriving DecidableEq, Repr

/-- `Compiler` (part_000 lines 185-191): constants, symbol table, current
scope (`scopes[scopeIndex]`) and the enclosing scopes. -/
structure Compiler where
  constants : List VObj
  symbolTable : SymbolTable
  scope : CompilationScope
  outerScopes : List CompilationScope
deriving DecidableEq, Repr

/-- The zero `CompilationScope` (fresh buffer, zero bookkeeping; the zero Go
`EmittedInstruction` has opcode 0 and position 0). -/
def freshScope : CompilationScope := ⟨[], ⟨0, 0⟩, ⟨0, 0⟩⟩

/-- `compiler.New` (part_000 lines 193-211). -/
def newCompiler : Compiler := ⟨[], newSymbolTable, freshScope, []⟩

/-- `Compiler.addConstant` (part_000 lines 512-515): append, return the new
constant's index. -/
def Compiler.addConstant (c : Compiler) (obj : VObj) : Compiler × Nat :=
  ({ c with constants := c.constants ++ [obj] }, c.constants.length)

/-- `Compiler.emit` (part_000 lines 517-530): append `Make opcode operands`
to the current scope, shift last/previous instruction bookkeeping, return the
new instruction's position. -/
def Compiler.emit (c : Compiler) (opcode : Nat) (operands : List Int) :
    Compiler × Nat :=
  let pos := c.scope.instructions.length
  ({ c with scope := { instructions := c.scope.instructions ++ make opcode operands,
                       previousInstruction := c.scope.lastInstruction,
                       lastInstruction := ⟨opcode, pos⟩ } }, pos)

/-- `Compiler.lastInstructionIs` (part_000 lines 557-559). -/
def Compiler.lastInstructionIs (c : Compiler) (op : Nat) : Bool :=
  c.scope.lastInstruction.opcode = op

/-- `Compiler.removeLastInstruction` (part_000 lines 532-535): truncate at the
last instruction's position and restore `last := previous`. -/
def Compiler.removeLastInstruction (c : Compiler) : Compiler :=
  { c with scope := { instructions := c.scope.instructions.take c.scope.lastInstruction.position,
                      lastInstruction := c.scope.previousInstruction,
                      previousInstruction := c.scope.previousInstruction } }

/-- Byte-wise in-place overwrite, `Compiler.replaceInstruction` (part_000
lines 551-555).  Writing past the end would be a Go panic; `List.set` ignores
it, which the compiler never relies on. -/
def listOverwrite (l : List Nat) (i : Nat) : List Nat → List Nat
  | [] => l
  | b :: bs => listOverwrite (l.set i b) (i + 1) bs

/-- `Compiler.changeOperand` (part_000 lines 537-542): re-encode the
instruction at `instructionIndex` with the new operand and overwrite it. -/
def Compiler.changeOperand (c : Compiler) (instructionIndex : Nat) (operand : Int) :
    Compiler :=
  let opcode := c.scope.instructions.getD instructionIndex 0
  { c with scope := { c.scope with
      instructions := listOverwrite c.scope.instructions instructionIndex
        (make opcode [operand]) } }

/-- `Compiler.replaceLastPopWithReturn` (part_000 lines 561-573): overwrite
the byte at the last instruction's position with `ReturnValue` and update the
bookkeeping opcode in place (same position). -/
def Compiler.replaceLastPopWithReturn (c : Compiler) : Compiler :=
  { c with scope := { c.scope with
      instructions := listOverwrite c.scope.instructions
        c.scope.lastInstruction.position (make opReturnValue []),
      lastInstruction := ⟨opReturnValue, c.scope.lastInstruction.position⟩ } }

/-- `Compiler.loadSymbol` (part_000 lines 499-510): emit the load that matches
the symbol's scope; the switch default emits `GetLocal`. -/
def Compiler.loadSymbol (c : Compiler) (symbol : Symbol) : Compiler :=
  match symbol.scope with
  | .global => (c.emit opGetGlobal [(symbol.index : Int)]).1
  | .builtin => (c.emit opGetBuiltin [(symbol.index : Int)]).1
  | .freeS => (c.emit opGetFreeVar [(symbol.index : Int)]).1
  | _ => (c.emit opGetLocal [(symbol.index : Int)]).1

/-- `Compiler.enterScope` (part_000 lines 575-585): push a fresh scope and an
enclosed symbol table. -/
def Compiler.enterScope (c : Compiler) : Compiler :=
  { c with symbolTable := ⟨[], 0, []⟩ :: c.symbolTable,
           scope := freshScope,
           outerScopes := c.scope :: c.outerScopes }

/-- `Compiler.leaveScope` (part_000 lines 587-594): return the finished
scope's instructions, pop the scope stack and step to the outer symbol table.
`none` on the never-taken main-scope pop. -/
def Compiler.leaveScope (c : Compiler) : Option (List Nat × Compiler) :=
  match c.outerScopes with
  | [] => none
  | s :: rest => some (c.scope.instructions,
      { c with symbolTable := c.symbolTable.tail, scope := s, outerScopes := rest })

/-- `FunctionExpression` case, parameter definition loop (part_000 lines
436-438). -/
def paramsDefined (c : Compiler) (params : List String) : Compiler :=
  params.foldl (fun acc p => { acc with symbolTable := (define acc.symbolTable p).2 }) c

/-- One step of Go's `sort.Slice` insertion sort: move the new element left
past every entry it is strictly less than (stable for equal keys, as Go's
insertion sort is on the small slices it is used on here). -/
def goInsertPair (lt : Expr × Expr → Expr × Expr → Bool) (x : Expr × Expr) :
    List (Expr × Expr) → List (Expr × Expr)
  | [] => [x]
  | y :: ys => if lt x y then x :: y :: ys else y :: goInsertPair lt x ys

/-- Left-to-right insertion sort, processing the enumeration order of the
pairs map. -/
def goSortAux (lt : Expr × Expr → Expr × Expr → Bool) (acc : List (Expr × Expr)) :
    List (Expr × Expr) → List (Expr × Expr)
  | [] => acc
  | y :: ys => goSortAux lt (goInsertPair lt y acc) ys

/-- The key comparator of the Hash case (part_000 lines 402-404):
`keys[i].String() < keys[j].String()`.  Sorting the keys and then looking
each key up in the map is modelled as sorting the (key, value) pairs by the
key's textual form. -/
def hashLt (a b : Expr × Expr) : Bool := exprString a.1 < exprString b.1

/-- The sorted pair list the Hash case compiles. -/
def goSortPairs (ps : List (Expr × Expr)) : List (Expr × Expr) :=
  goSortAux hashLt [] ps

theorem plsize_goInsertPair (lt : Expr × Expr → Expr × Expr → Bool)
    (x : Expr × Expr) (l : List (Expr × Expr)) :
    plsize (goInsertPair lt x l) = 1 + esize x.1 + esize x.2 + plsize l := by
  induction l with
  | nil => simp [goInsertPair, plsize]
  | cons y ys ih =>
    by_cases h : lt x y = true
    · simp [goInsertPair, h, plsize]
    · simp only [goInsertPair, if_neg h, plsize, ih]
      omega

theorem plsize_goSortAux (lt : Expr × Expr → Expr × Expr → Bool)
    (l acc : List (Expr × Expr)) :
    plsize (goSortAux lt acc l) = plsize acc + plsize l := by
  induction l generalizing acc with
  | nil => simp [goSortAux, plsize]
  | cons y ys ih =>
    simp only [goSortAux, plsize, ih, plsize_goInsertPair]
    omega

theorem plsize_goSortPairs (ps : List (Expr × Expr)) :
    plsize (goSortPairs ps) = plsize ps := by
  simp [goSortPairs, plsize_goSortAux, plsize]

/-- `FreeSymbols` of the current (innermost) table. -/
def currentFreeSymbols (t : SymbolTable) : List Symbol :=
  match t with
  | [] => []
  | f :: _ => f.freeSymbols

/-- `numDefinitions` of the current (innermost) table. -/
def currentNumDefinitions (t : SymbolTable) : Nat :=
  match t with
  | [] => 0
  | f :: _ => f.numDefinitions

mutual
/-- `Compiler.Compile` on statement nodes (part_000 lines 221-497): the
ExpressionStatement, BlockStatement, LetStatement and ReturnStatement cases. -/
def compileStmt (c : Compiler) : Stmt → Except String Compiler
  | .exprS e =>
    match compileExpr c e with
    | .error msg => .error msg
    | .ok c => .ok (c.emit opPop []).1
  | .block stmts => compileStmts c stmts
  | .letS name value =>
    let st := define c.symbolTable name
    match compileExpr { c with symbolTable := st.2 } value with
    | .error msg => .error msg
    | .ok c =>
      if st.1.scope = SymbolScope.global then
        .ok (c.emit opSetGlobal [(st.1.index : Int)]).1
      else
        .ok (c.emit opSetLocal [(st.1.index : Int)]).1
  | .ret result =>
    match compileExpr c result with
    | .error msg => .error msg
    | .ok c => .ok (c.emit opReturnValue []).1
termination_by s => ssize s
decreasing_by all_goals (simp only [esize, ssize, slsize, elsize, plsize]; omega)

/-- The statement loop shared by the Program and BlockStatement cases. -/
def compileStmts (c : Compiler) : List Stmt → Except String Compiler
  | [] => .ok c
  | s :: ss =>
    match compileStmt c s with
    | .error msg => .error msg
    | .ok c => compileStmts c ss
termination_by l => slsize l
decreasing_by all_goals (simp only [esize, ssize, slsize, elsize, plsize]; omega)

/-- `Compiler.Compile` on expression nodes (part_000 lines 221-497). -/
def compileExpr (c : Compiler) : Expr → Except String Compiler
  | .inf op l r =>
    if op = "<" then
      match compileExpr c r with
      | .error msg => .error msg
      | .ok c =>
        match compileExpr c l with
        | .error msg => .error msg
        | .ok c => .ok (c.emit opGreaterThan []).1
    else
      match compileExpr c l with
      | .error msg => .error msg
      | .ok c =>
        match compileExpr c r with
        | .error msg => .error msg
        | .ok c =>
          if op = "+" then .ok (c.emit opAdd []).1
          else if op = "-" then .ok (c.emit opSub []).1
          else if op = "*" then .ok (c.emit opMul []).1
          else if op = "/" then .ok (c.emit opDiv []).1
          else if op = "==" then .ok (c.emit opEqual []).1
          else if op = "!=" then .ok (c.emit opNotEqual []).1
          else if op = ">" then .ok (c.emit opGreaterThan []).1
          else .error ("unknown operator: " ++ op)
  | .pre op right =>
    match compileExpr c right with
    | .error msg => .error msg
    | .ok c =>
      if op = "!" then .ok (c.emit opBang []).1
      else if op = "-" then .ok (c.emit opMinus []).1
      else .error ("invalid prefix operator: " ++ op)
  | .int v =>
    let ci := c.addConstant (.integer v)
    .ok (ci.1.emit opConstant [(ci.2 : Int)]).1
  | .str v =>
    let ci := c.addConstant (.strO v)
    .ok (ci.1.emit opConstant [(ci.2 : Int)]).1
  | .boolE b =>
    if b then .ok (c.emit opTrue []).1 else .ok (c.emit opFalse []).1
  | .ifE cond thenB none =>
    match compileExpr c cond with
    | .error msg => .error msg
    | .ok c =>
      let cj := c.emit opJumpNotTrue [-1]
      match compileStmts cj.1 thenB with
      | .error msg => .error msg
      | .ok c =>
        let c := if c.lastInstructionIs opPop then c.removeLastInstruction else c
        let cjmp := c.emit opJump [-1]
        let afterJumpIndex := cjmp.1.scope.instructions.length
        let c := (cjmp.1.emit opNull []).1
        let afterNullIndex := c.scope.instructions.length
        let c := c.changeOperand cjmp.2 (afterNullIndex : Int)
        .ok (c.changeOperand cj.2 (afterJumpIndex : Int))
  | .ifE cond thenB (some elseStmts) =>
    match compileExpr c cond with
    | .error msg => .error msg
    | .ok c =>
      let cj := c.emit opJumpNotTrue [-1]
      match compileStmts cj.1 thenB with
      | .error msg => .error msg
      | .ok c =>
        let c := if c.lastInstructionIs opPop then c.removeLastInstruction else c
        let cjmp := c.emit opJump [-1]
        let afterThenIndex := cjmp.1.scope.instructions.length
        let c := cjmp.1.changeOperand cj.2 (afterThenIndex : Int)
        match compileStmts c elseStmts with
        | .error msg => .error msg
        | .ok c =>
          let c := if c.lastInstructionIs opPop then c.removeLastInstruction else c
          let afterElseIndex := c.scope.instructions.length
          .ok (c.changeOperand cjmp.2 (afterElseIndex : Int))
  | .ident name =>
    match resolve c.symbolTable name with
    | none => .error ("unable to resolve identifier: " ++ name)
    | some st => .ok (Compiler.loadSymbol { c with symbolTable := st.2 } st.1)
  | .arr elements =>
    match compileExprList c elements with
    | .error msg => .error msg
    | .ok c => .ok (c.emit opArray [(elements.length : Int)]).1
  | .hash pairs =>
    match compilePairs c (goSortPairs pairs) with
    | .error msg => .error msg
    | .ok c => .ok (c.emit opHash [((pairs.length * 2 : Nat) : Int)]).1
  | .idx arrE indexE =>
    match compileExpr c arrE with
    | .error msg => .error msg
    | .ok c =>
      match compileExpr c indexE with
      | .error msg => .error msg
      | .ok c => .ok (c.emit opIndex []).1
  | .fnE params body =>
    match compileStmts (paramsDefined c.enterScope params) body with
    | .error msg => .error msg
    | .ok cb =>
      let cb := if cb.lastInstructionIs opPop then cb.replaceLastPopWithReturn else cb
      let cb := if ¬ cb.lastInstructionIs opReturnValue then (cb.emit opReturn []).1 else cb
      let freeSymbols := currentFreeSymbols cb.symbolTable
      let localCount := currentNumDefinitions cb.symbolTable
      match cb.leaveScope with
      | none => .error "nil outer symbol table"
      | some ic =>
        let c3 := freeSymbols.foldl Compiler.loadSymbol ic.2
        let ci := c3.addConstant (.compiledFunction ic.1 localCount params.length)
        .ok (ci.1.emit opClosure [(ci.2 : Int), (freeSymbols.length : Int)]).1
  | .call fn args =>
    match compileExpr c fn with
    | .error msg => .error msg
    | .ok c =>
      match compileExprList c args with
      | .error msg => .error msg
      | .ok c => .ok (c.emit opCall [(args.length : Int)]).1
termination_by e => esize e
decreasing_by
  all_goals simp only [esize, ssize, slsize, elsize, plsize, plsize_goSortPairs]
  all_goals omega

/-- The element loop of the Array case. -/
def compileExprList (c : Compiler) : List Expr → Except String Compiler
  | [] => .ok c
  | e :: es =>
    match compileExpr c e with
    | .error msg => .error msg
    | .ok c => compileExprList c es
termination_by l => elsize l
decreasing_by all_goals (simp only [esize, ssize, slsize, elsize, plsize]; omega)

/-- The sorted key/value loop of the Hash case. -/
def compilePairs (c : Compiler) : List (Expr × Expr) → Except String Compiler
  | [] => .ok c
  | p :: ps =>
    match compileExpr c p.1 with
    | .error msg => .error msg
    | .ok c =>
      match compileExpr c p.2 with
      | .error msg => .error msg
      | .ok c => compilePairs c ps
termination_by l => plsize l
decreasing_by all_goals (simp only [esize, ssize, slsize, elsize, plsize]; omega)
end

/-- The bytecode bundle (part_000 lines 596-599). -/
structure Bytecode where
  instructions : List Nat
  constants : List VObj
deriving DecidableEq, Repr

/-- Compiling an `ast.Program` (its statement loop) with `compiler.New` and
extracting `Compiler.Bytecode()` (main-scope instructions plus constants). -/
def compileProgram (stmts : List Stmt) : Except String Bytecode :=
  match compileStmts newCompiler stmts with
  | .error msg => .error msg
  | .ok c => .ok ⟨c.scope.instructions, c.constants⟩

/-! ## Claims about the VM -/

/-- The opcodes `VM.Run`'s switch handles (array.go lines 85-122). -/
def handledOps : List Nat :=
  [opConstant, opAdd, opSub, opMul, opDiv, opEqual, opNotEqual, opGreaterThan,
   opTrue, opFalse, opPop]

theorem runFrom_skip (constants : List VObj) (instructions : List Nat)
    (s : VmState) (ip : Nat) (b : Nat) (hb : instructions[ip]? = some b)
    (hu : b ∉ handledOps) :
    runFrom constants instructions s ip = runFrom constants instructions s (ip + 1) := by
  have hlt : ip < instructions.length := by
    rcases List.getElem?_eq_some_iff.mp hb with ⟨h, _⟩
    exact h
  have hget : instructions.get ⟨ip, hlt⟩ = b := by
    rcases List.getElem?_eq_some_iff.mp hb with ⟨h, hv⟩
    simpa using hv
  simp only [handledOps, List.mem_cons, List.not_mem_nil, or_false, not_or] at hu
  rw [runFrom]
  simp only [hlt, dif_pos, hget]
  rw [if_neg hu.1, if_neg (by tauto), if_neg (by tauto), if_neg (by tauto),
    if_neg (by tauto), if_neg (by tauto)]

theorem runFrom_past_end (constants : List VObj) (instructions : List Nat)
    (s : VmState) (ip : Nat) (h : instructions.length ≤ ip) :
    runFrom constants instructions s ip = .ok s := by
  rw [runFrom]
  simp only [dif_neg (by omega : ¬ ip < instructions.length)]

/-- C10: any opcode byte outside the eleven the switch handles leaves the VM
state unchanged and only advances the instruction pointer by one byte (so
operand bytes of unimplemented instructions are decoded as opcodes on later
iterations), and a run consisting solely of such bytes finishes without any
error — `Run` has no unknown-opcode error (the switch has no default case,
array.go lines 85-122). -/
theorem C10_unhandled_opcode_skip :
    (∀ (constants : List VObj) (instructions : List Nat) (s : VmState)
       (ip : Nat) (b : Nat), instructions[ip]? = some b → b ∉ handledOps →
       runFrom constants instructions s ip = runFrom constants instructions s (ip + 1))
    ∧ (∀ (constants : List VObj) (instructions : List Nat) (s : VmState),
       (∀ b ∈ instructions, b ∉ handledOps) →
       runFrom constants instructions s 0 = .ok s) := by
  constructor
  · intro constants instructions s ip b hb hu
    exact runFrom_skip constants instructions s ip b hb hu
  · intro constants instructions s hall
    suffices h : ∀ (n ip : Nat), instructions.length - ip ≤ n →
        runFrom constants instructions s ip = .ok s by
      exact h instructions.length 0 (by omega)
    intro n
    induction n with
    | zero =>
      intro ip hle
      exact runFrom_past_end constants instructions s ip (by omega)
    | succ n ih =>
      intro ip hle
      by_cases hlt : ip < instructions.length
      · have hb : instructions[ip]? = some (instructions.get ⟨ip, hlt⟩) :=
          List.getElem?_eq_some_iff.mpr ⟨hlt, rfl⟩
        have hmem : instructions.get ⟨ip, hlt⟩ ∈ instructions := List.get_mem _ _ hlt
        rw [runFrom_skip constants instructions s ip _ hb (hall _ hmem)]
        exact ih (ip + 1) (by omega)
      · exact runFrom_past_end constants instructions s ip (by omega)

/-- C10 witness: byte 29 (`CurrentClosure`) is not handled; at a concrete
state the step is a skip and the whole run is a no-op success. -/
theorem C10_unhandled_opcode_skip_witness :
    runFrom [] [29] ⟨[.nilO], 0⟩ 0 = runFrom [] [29] ⟨[.nilO], 0⟩ 1
    ∧ runFrom [] [29, 30] ⟨[.nilO], 0⟩ 0 = .ok ⟨[.nilO], 0⟩ :=
  ⟨C10_unhandled_opcode_skip.1 [] [29] ⟨[.nilO], 0⟩ 0 29 (by decide) (by decide),
   C10_unhandled_opcode_skip.2 [] [29, 30] ⟨[.nilO], 0⟩ (by decide)⟩

/-- C9: a push with the stack pointer at or past the fixed capacity 2048
returns the error "stack overflow" (no state is produced, so the stack and
stack pointer are untouched); otherwise the value lands at `stack[sp]` and
the pointer increments; and `Run` terminates with the overflow error the
moment an executed instruction pushes (here shown for the always-pushing
`True`/`False` opcodes). -/
theorem C9_stack_overflow :
    (∀ (s : VmState) (o : VObj), StackSize ≤ s.sp →
       s.push o = .error .stackOverflow)
    ∧ (∀ (s : VmState) (o : VObj), s.sp < StackSize → s.sp < s.stack.length →
       s.push o = .ok ⟨s.stack.set s.sp o, s.sp + 1⟩)
    ∧ (∀ (constants : List VObj) (instructions : List Nat) (s : VmState)
       (ip : Nat) (b : Nat), instructions[ip]? = some b →
       b = opTrue ∨ b = opFalse → StackSize ≤ s.sp →
       runFrom constants instructions s ip = .error .stackOverflow) := by
  refine ⟨?_, ?_, ?_⟩
  · intro s o h
    simp [VmState.push, h]
  · intro s o h hlen
    simp [VmState.push, h, hlen, Nat.not_le.mpr h]
  · intro constants instructions s ip b hb hbv hsp
    have hlt : ip < instructions.length := by
      rcases List.getElem?_eq_some_iff.mp hb with ⟨h, _⟩
      exact h
    have hget : instructions.get ⟨ip, hlt⟩ = b := by
      rcases List.getElem?_eq_some_iff.mp hb with ⟨h, hv⟩
      simpa using hv
    have hpush : ∀ o : VObj, s.push o = .error .stackOverflow := by
      intro o
      simp [VmState.push, hsp]
    rw [runFrom]
    rcases hbv with hbv | hbv <;>
      simp only [hlt, dif_pos, hget, hbv, opTrue, opFalse, opConstant, opAdd,
        opSub, opMul, opDiv, opEqual, opNotEqual, opGreaterThan] <;>
      norm_num <;>
      simp [hpush]

/-- C9 witness at a concrete full stack. -/
theorem C9_stack_overflow_witness :
    VmState.push ⟨[], 2048⟩ (.integer 7) = .error .stackOverflow
    ∧ VmState.push ⟨[.nilO, .nilO], 0⟩ (.integer 7) = .ok ⟨[.integer 7, .nilO], 1⟩
    ∧ runFrom [] [opTrue] ⟨[], 2048⟩ 0 = .error .stackOverflow :=
  ⟨C9_stack_overflow.1 ⟨[], 2048⟩ (.integer 7) (by decide),
   C9_stack_overflow.2.1 ⟨[.nilO, .nilO], 0⟩ (.integer 7) (by decide) (by decide),
   C9_stack_overflow.2.2 [] [opTrue] ⟨[], 2048⟩ 0 opTrue (by decide)
     (Or.inl rfl) (by decide)⟩

/-- C3 counterexample: popping two Strings and executing `Add` does not push
their concatenation (nor any "unsupported types" error value — `Run` has no
such error): the `*object.Integer` type assertion panics. -/
theorem C3_strings_not_concatenated :
    executeBinaryIntegerOperation opAdd ⟨[.strO "foo", .strO "bar"], 2⟩ =
      .error .panicNotInteger := rfl

/-- C3 (amended): `executeBinaryIntegerOperation`, reached from `Run` exactly
on Add/Sub/Mul/Div, pushes the Integer result when both popped operands are
Integers (int64-wrapped; `Div` panics on a zero divisor); when the left or
right popped operand is not an Integer the Go type assertion panics — no
String concatenation and no "unsupported types" error exists. -/
theorem C3_binary_integer_only :
    (∀ (constants : List VObj) (instructions : List Nat) (s : VmState)
       (ip : Nat) (b : Nat), instructions[ip]? = some b →
       b = opAdd ∨ b = opSub ∨ b = opMul ∨ b = opDiv →
       runFrom constants instructions s ip =
         match executeBinaryIntegerOperation b s with
         | .ok s1 => runFrom constants instructions s1 (ip + 1)
         | .error e => .error e)
    ∧ (∀ (st : List VObj) (n : Nat) (a b : Int) (op : Nat),
       st[n]? = some (.integer a) → st[n + 1]? = some (.integer b) →
       (op = opDiv → b ≠ 0) →
       executeBinaryIntegerOperation op ⟨st, n + 2⟩ =
         VmState.push ⟨st, n⟩ (.integer (
           if op = opAdd then wrap64 (a + b)
           else if op = opSub then wrap64 (a - b)
           else if op = opMul then wrap64 (a * b)
           else if op = opDiv then wrap64 (a.tdiv b)
           else 0)))
    ∧ (∀ (st : List VObj) (n : Nat) (l r : VObj) (op : Nat),
       st[n]? = some l → st[n + 1]? = some r →
       (∀ x : Int, l ≠ .integer x) →
       executeBinaryIntegerOperation op ⟨st, n + 2⟩ = .error .panicNotInteger)
    ∧ (∀ (st : List VObj) (n : Nat) (a : Int) (r : VObj) (op : Nat),
       st[n]? = some (.integer a) → st[n + 1]? = some r →
       (∀ x : Int, r ≠ .integer x) →
       executeBinaryIntegerOperation op ⟨st, n + 2⟩ = .error .panicNotInteger) := by
  refine ⟨?_, ?_, ?_, ?_⟩
  · intro constants instructions s ip b hb hbv
    have hlt : ip < instructions.length := by
      rcases List.getElem?_eq_some_iff.mp hb with ⟨h, _⟩
      exact h
    have hget : instructions.get ⟨ip, hlt⟩ = b := by
      rcases List.getElem?_eq_some_iff.mp hb with ⟨h, hv⟩
      simpa using hv
    rw [runFrom]
    simp only [hlt, dif_pos, hget]
    rw [if_neg (by rcases hbv with h | h | h | h <;> simp [h, opAdd, opSub, opMul,
      opDiv, opConstant]), if_pos hbv]
  · intro st n a b op ha hb hdiv
    have hpop1 : VmState.pop ⟨st, n + 2⟩ = .ok (.integer b, ⟨st, n + 1⟩) := by
      simp [VmState.pop, hb]
    have hpop2 : VmState.pop ⟨st, n + 1⟩ = .ok (.integer a, ⟨st, n⟩) := by
      simp [VmState.pop, ha]
    by_cases hop : op = opDiv
    · subst hop
      have hb0 : b ≠ 0 := hdiv rfl
      simp [executeBinaryIntegerOperation, hpop1, hpop2, assertInteger,
        goIntBinop, hb0, opAdd, opSub, opMul, opDiv, bind, Except.bind]
    · simp only [executeBinaryIntegerOperation, hpop1, hpop2, assertInteger,
        goIntBinop, hop, bind, Except.bind, if_false]
      split_ifs <;> rfl
  · intro st n l r op hl hr hnot
    have hpop1 : VmState.pop ⟨st, n + 2⟩ = .ok (r, ⟨st, n + 1⟩) := by
      simp [VmState.pop, hr]
    have hpop2 : VmState.pop ⟨st, n + 1⟩ = .ok (l, ⟨st, n⟩) := by
      simp [VmState.pop, hl]
    have hassert : assertInteger l = .error .panicNotInteger := by
      cases l with
      | integer x => exact absurd rfl (hnot x)
      | nilO => rfl
      | boolean _ => rfl
      | strO _ => rfl
      | compiledFunction _ _ _ => rfl
    simp [executeBinaryIntegerOperation, hpop1, hpop2, hassert, bind, Except.bind]
  · intro st n a r op ha hr hnot
    have hpop1 : VmState.pop ⟨st, n + 2⟩ = .ok (r, ⟨st, n + 1⟩) := by
      simp [VmState.pop, hr]
    have hpop2 : VmState.pop ⟨st, n + 1⟩ = .ok (.integer a, ⟨st, n⟩) := by
      simp [VmState.pop, ha]
    have hassert : assertInteger r = .error .panicNotInteger := by
      cases r with
      | integer x => exact absurd rfl (hnot x)
      | nilO => rfl
      | boolean _ => rfl
      | strO _ => rfl
      | compiledFunction _ _ _ => rfl
    simp [executeBinaryIntegerOperation, hpop1, hpop2, assertInteger, hassert,
      bind, Except.bind]

/-- C3 witness: `3 - 5` at the dispatch level and the helper level, and a
panicking mixed-type operand pair. -/
theorem C3_binary_integer_only_witness :
    runFrom [] [opSub] ⟨[.integer 3, .integer 5], 2⟩ 0 =
      (match executeBinaryIntegerOperation opSub ⟨[.integer 3, .integer 5], 2⟩ with
       | .ok s1 => runFrom [] [opSub] s1 1
       | .error e => .error e)
    ∧ executeBinaryIntegerOperation opSub ⟨[.integer 3, .integer 5], 2⟩ =
        VmState.push ⟨[.integer 3, .integer 5], 0⟩ (.integer (wrap64 (3 - 5)))
    ∧ executeBinaryIntegerOperation opMul ⟨[.boolean true, .integer 5], 2⟩ =
        .error .panicNotInteger
    ∧ executeBinaryIntegerOperation opMul ⟨[.integer 5, .strO "s"], 2⟩ =
        .error .panicNotInteger := by
  refine ⟨C3_binary_integer_only.1 [] [opSub] ⟨[.integer 3, .integer 5], 2⟩ 0 opSub
      (by decide) (by simp [opSub]), ?_, ?_, ?_⟩
  · have h := C3_binary_integer_only.2.1 [.integer 3, .integer 5] 0 3 5 opSub
      (by decide) (by decide) (by decide)
    simpa using h
  · exact C3_binary_integer_only.2.2.1 [.boolean true, .integer 5] 0
      (.boolean true) (.integer 5) opMul (by decide) (by decide)
      (fun x => by simp)
  · exact C3_binary_integer_only.2.2.2 [.integer 5, .strO "s"] 0 5 (.strO "s")
      opMul (by decide) (by decide) (fun x => by simp)

/-- C4 counterexample: two Strings have the same runtime type, yet `Equal`
does not push the result of structural equality — it returns the "unable to
compare variables of type ..." error. -/
theorem C4_equal_strings_error :
    executeComparison opEqual ⟨[.strO "x", .strO "x"], 2⟩ =
      .error (.unableToCompare .stringT .stringT) := rfl

/-- C4 (amended): `executeComparison` pops right then left; operands of
different runtime types give the error "both operands must have same type,
had: <l> and <r>"; `Equal`/`NotEqual` push structural equality only for
Integer and Boolean pairs; `GreaterThan` is defined only on Integers (a
Boolean pair gives the "unexpected operation" error); any other same-type
pair — Strings included — gives the "unable to compare variables of type <l>
and <r>" error instead of a structural comparison. -/
theorem C4_comparison_dispatch :
    (∀ (st : List VObj) (n : Nat) (l r : VObj) (lt rt : ObjType) (op : Nat),
       st[n]? = some l → st[n + 1]? = some r →
       vtype l = some lt → vtype r = some rt → lt ≠ rt →
       executeComparison op ⟨st, n + 2⟩ = .error (.cmpMismatch lt rt))
    ∧ (∀ (st : List VObj) (n : Nat) (a b : Int),
       st[n]? = some (.integer a) → st[n + 1]? = some (.integer b) →
       executeComparison opEqual ⟨st, n + 2⟩ =
         VmState.push ⟨st, n⟩ (.boolean (a = b))
       ∧ executeComparison opNotEqual ⟨st, n + 2⟩ =
         VmState.push ⟨st, n⟩ (.boolean (a ≠ b))
       ∧ executeComparison opGreaterThan ⟨st, n + 2⟩ =
         VmState.push ⟨st, n⟩ (.boolean (b < a)))
    ∧ (∀ (st : List VObj) (n : Nat) (x y : Bool),
       st[n]? = some (.boolean x) → st[n + 1]? = some (.boolean y) →
       executeComparison opEqual ⟨st, n + 2⟩ =
         VmState.push ⟨st, n⟩ (.boolean (x = y))
       ∧ executeComparison opNotEqual ⟨st, n + 2⟩ =
         VmState.push ⟨st, n⟩ (.boolean (x ≠ y))
       ∧ executeComparison opGreaterThan ⟨st, n + 2⟩ =
         .error (.unexpectedOperation opGreaterThan))
    ∧ (∀ (st : List VObj) (n : Nat) (x y : String) (op : Nat),
       st[n]? = some (.strO x) → st[n + 1]? = some (.strO y) →
       executeComparison op ⟨st, n + 2⟩ =
         .error (.unableToCompare .stringT .stringT)) := by
  refine ⟨?_, ?_, ?_, ?_⟩
  · intro st n l r lt rt op hl hr hlt hrt hne
    have hpop1 : VmState.pop ⟨st, n + 2⟩ = .ok (r, ⟨st, n + 1⟩) := by
      simp [VmState.pop, hr]
    have hpop2 : VmState.pop ⟨st, n + 1⟩ = .ok (l, ⟨st, n⟩) := by
      simp [VmState.pop, hl]
    simp [executeComparison, hpop1, hpop2, hlt, hrt, bind, Except.bind,
      pure, Except.pure, Ne.symm hne]
  · intro st n a b ha hb
    have hpop1 : VmState.pop ⟨st, n + 2⟩ = .ok (.integer b, ⟨st, n + 1⟩) := by
      simp [VmState.pop, hb]
    have hpop2 : VmState.pop ⟨st, n + 1⟩ = .ok (.integer a, ⟨st, n⟩) := by
      simp [VmState.pop, ha]
    refine ⟨?_, ?_, ?_⟩ <;>
      simp [executeComparison, hpop1, hpop2, vtype, bind, Except.bind,
        pure, Except.pure, executeIntegerComparison, assertInteger, opEqual,
        opNotEqual, opGreaterThan]
  · intro st n x y hx hy
    have hpop1 : VmState.pop ⟨st, n + 2⟩ = .ok (.boolean y, ⟨st, n + 1⟩) := by
      simp [VmState.pop, hy]
    have hpop2 : VmState.pop ⟨st, n + 1⟩ = .ok (.boolean x, ⟨st, n⟩) := by
      simp [VmState.pop, hx]
    refine ⟨?_, ?_, ?_⟩ <;>
      simp [executeComparison, hpop1, hpop2, vtype, bind, Except.bind,
        pure, Except.pure, executeBooleanComparison, assertBoolean, opEqual,
        opNotEqual, opGreaterThan]
  · intro st n x y op hx hy
    have hpop1 : VmState.pop ⟨st, n + 2⟩ = .ok (.strO y, ⟨st, n + 1⟩) := by
      simp [VmState.pop, hy]
    have hpop2 : VmState.pop ⟨st, n + 1⟩ = .ok (.strO x, ⟨st, n⟩) := by
      simp [VmState.pop, hx]
    simp [executeComparison, hpop1, hpop2, vtype, bind, Except.bind,
      pure, Except.pure]

/-- C4 witness: mismatch error, integer and boolean comparisons, and the
string error at concrete inputs. -/
theorem C4_comparison_dispatch_witness :
    executeComparison opEqual ⟨[.integer 1, .boolean true], 2⟩ =
      .error (.cmpMismatch .integerT .booleanT)
    ∧ executeComparison opGreaterThan ⟨[.integer 7, .integer 3], 2⟩ =
      VmState.push ⟨[.integer 7, .integer 3], 0⟩ (.boolean true)
    ∧ executeComparison opGreaterThan ⟨[.boolean true, .boolean false], 2⟩ =
      .error (.unexpectedOperation opGreaterThan)
    ∧ executeComparison opNotEqual ⟨[.strO "a", .strO "b"], 2⟩ =
      .error (.unableToCompare .stringT .stringT) := by
  refine ⟨?_, ?_, ?_, ?_⟩
  · exact C4_comparison_dispatch.1 [.integer 1, .boolean true] 0
      (.integer 1) (.boolean true) .integerT .booleanT opEqual
      (by decide) (by decide) rfl rfl (by decide)
  · have h := (C4_comparison_dispatch.2.1 [.integer 7, .integer 3] 0 7 3
      (by decide) (by decide)).2.2
    simpa using h
  · exact (C4_comparison_dispatch.2.2.1 [.boolean true, .boolean false] 0
      true false (by decide) (by decide)).2.2
  · exact C4_comparison_dispatch.2.2.2 [.strO "a", .strO "b"] 0 "a" "b"
      opNotEqual (by decide) (by decide)

/-! ## Claims about the compiler -/

/-- A compiler state over a bare global symbol table (no built-ins), as
`NewWithState` permits; used by the concrete witnesses. -/
def bareCompiler : Compiler := ⟨[], [⟨[], 0, []⟩], freshScope, []⟩

theorem make_no_operand (op : Nat) (h : opWidths op = []) : make op [] = [op] := by
  simp [make, h]

/-- C2: compiling an expression statement emits exactly the compiled
expression's instructions followed by one `Pop` byte, touching nothing else
(part_000 lines 231-236); a failing expression propagates its error. -/
theorem C2_expression_statement_pop :
    (∀ (c : Compiler) (e : Expr) (c1 : Compiler), compileExpr c e = .ok c1 →
      compileStmt c (.exprS e) = .ok (c1.emit opPop []).1
      ∧ (c1.emit opPop []).1.scope.instructions = c1.scope.instructions ++ [opPop]
      ∧ (c1.emit opPop []).1.constants = c1.constants
      ∧ (c1.emit opPop []).1.symbolTable = c1.symbolTable)
    ∧ (∀ (c : Compiler) (e : Expr) (msg : String), compileExpr c e = .error msg →
      compileStmt c (.exprS e) = .error msg) := by
  constructor
  · intro c e c1 h
    have hm : make opPop [] = [opPop] := make_no_operand opPop rfl
    refine ⟨?_, ?_, rfl, rfl⟩
    · simp [compileStmt, h]
    · simp [Compiler.emit, hm]
  · intro c e msg h
    simp [compileStmt, h]

/-- C2 witness: the expression statement `5;` compiled from a bare compiler
state. -/
theorem C2_expression_statement_pop_witness :
    compileStmt bareCompiler (.exprS (.int 5)) =
      .ok ((⟨[.integer 5], [⟨[], 0, []⟩], ⟨[0, 0, 0], ⟨0, 0⟩, ⟨0, 0⟩⟩, []⟩ :
        Compiler).emit opPop []).1
    ∧ ((⟨[.integer 5], [⟨[], 0, []⟩], ⟨[0, 0, 0], ⟨0, 0⟩, ⟨0, 0⟩⟩, []⟩ :
        Compiler).emit opPop []).1.scope.instructions = [0, 0, 0] ++ [opPop] := by
  have h : compileExpr bareCompiler (.int 5) =
      .ok ⟨[.integer 5], [⟨[], 0, []⟩], ⟨[0, 0, 0], ⟨0, 0⟩, ⟨0, 0⟩⟩, []⟩ := by
    simp [compileExpr, bareCompiler, Compiler.addConstant, Compiler.emit, make,
      opWidths, u16bytes, u8byte, freshScope, opConstant, opJump, opJumpNotTrue,
      opSetGlobal, opGetGlobal, opArray, opHash]
    decide
  have happ := C2_expression_statement_pop.1 bareCompiler (.int 5) _ h
  exact ⟨happ.1, happ.2.1⟩

/-- C6: for the operator `<` the compiler compiles the right operand, then
the left operand, then appends the single `GreaterThan` opcode byte — it
emits no less-than opcode (none exists in the opcode set); for every other
supported infix operator it compiles left, then right, then appends that
operator's single opcode byte (part_000 lines 246-290). -/
theorem C6_less_than_swaps_operands :
    (∀ (c c1 c2 : Compiler) (l r : Expr),
      compileExpr c r = .ok c1 → compileExpr c1 l = .ok c2 →
      compileExpr c (.inf "<" l r) = .ok (c2.emit opGreaterThan []).1
      ∧ (c2.emit opGreaterThan []).1.scope.instructions =
          c2.scope.instructions ++ [opGreaterThan])
    ∧ (∀ (op : String) (b : Nat),
      (op, b) ∈ ([("+", opAdd), ("-", opSub), ("*", opMul), ("/", opDiv),
        ("==", opEqual), ("!=", opNotEqual), (">", opGreaterThan)] :
        List (String × Nat)) →
      ∀ (c c1 c2 : Compiler) (l r : Expr),
      compileExpr c l = .ok c1 → compileExpr c1 r = .ok c2 →
      compileExpr c (.inf op l r) = .ok (c2.emit b []).1
      ∧ (c2.emit b []).1.scope.instructions = c2.scope.instructions ++ [b]) := by
  constructor
  · intro c c1 c2 l r hr hl
    have hm : make opGreaterThan [] = [opGreaterThan] := make_no_operand _ rfl
    refine ⟨?_, ?_⟩
    · simp [compileExpr, hr, hl]
    · simp [Compiler.emit, hm]
  · intro op b hmem c c1 c2 l r hl hr
    have hmake : ∀ bb : Nat, opWidths bb = [] →
        (c2.emit bb []).1.scope.instructions = c2.scope.instructions ++ [bb] := by
      intro bb hw
      simp [Compiler.emit, make_no_operand bb hw]
    simp only [List.mem_cons, List.not_mem_nil, or_false, Prod.mk.injEq] at hmem
    rcases hmem with ⟨h1, h2⟩ | ⟨h1, h2⟩ | ⟨h1, h2⟩ | ⟨h1, h2⟩ | ⟨h1, h2⟩ |
      ⟨h1, h2⟩ | ⟨h1, h2⟩ <;> subst h1 <;> subst h2 <;>
      exact ⟨by simp [compileExpr, hl, hr], hmake _ rfl⟩

/-- C6 witness: `1 < 2` and `1 + 2` from a bare compiler state. -/
theorem C6_less_than_swaps_operands_witness :
    compileExpr bareCompiler (.inf "<" (.int 1) (.int 2)) =
      .ok ((⟨[.integer 2, .integer 1], [⟨[], 0, []⟩],
        ⟨[0, 0, 0, 0, 0, 1], ⟨0, 3⟩, ⟨0, 0⟩⟩, []⟩ : Compiler).emit opGreaterThan []).1
    ∧ compileExpr bareCompiler (.inf "+" (.int 1) (.int 2)) =
      .ok ((⟨[.integer 1, .integer 2], [⟨[], 0, []⟩],
        ⟨[0, 0, 0, 0, 0, 1], ⟨0, 3⟩, ⟨0, 0⟩⟩, []⟩ : Compiler).emit opAdd []).1 := by
  have h1 : compileExpr bareCompiler (.int 2) =
      .ok ⟨[.integer 2], [⟨[], 0, []⟩], ⟨[0, 0, 0], ⟨0, 0⟩, ⟨0, 0⟩⟩, []⟩ := by
    simp [compileExpr, bareCompiler, Compiler.addConstant, Compiler.emit, make,
      opWidths, u16bytes, u8byte, freshScope, opConstant, opJump, opJumpNotTrue,
      opSetGlobal, opGetGlobal, opArray, opHash]
    decide
  have h2 : compileExpr (⟨[.integer 2], [⟨[], 0, []⟩],
      ⟨[0, 0, 0], ⟨0, 0⟩, ⟨0, 0⟩⟩, []⟩ : Compiler) (.int 1) =
      .ok ⟨[.integer 2, .integer 1], [⟨[], 0, []⟩],
        ⟨[0, 0, 0, 0, 0, 1], ⟨0, 3⟩, ⟨0, 0⟩⟩, []⟩ := by
    simp [compileExpr, Compiler.addConstant, Compiler.emit, make,
      opWidths, u16bytes, u8byte, opConstant, opJump, opJumpNotTrue,
      opSetGlobal, opGetGlobal, opArray, opHash]
    decide
  have h3 : compileExpr bareCompiler (.int 1) =
      .ok ⟨[.integer 1], [⟨[], 0, []⟩], ⟨[0, 0, 0], ⟨0, 0⟩, ⟨0, 0⟩⟩, []⟩ := by
    simp [compileExpr, bareCompiler, Compiler.addConstant, Compiler.emit, make,
      opWidths, u16bytes, u8byte, freshScope, opConstant, opJump, opJumpNotTrue,
      opSetGlobal, opGetGlobal, opArray, opHash]
    decide
  have h4 : compileExpr (⟨[.integer 1], [⟨[], 0, []⟩],
      ⟨[0, 0, 0], ⟨0, 0⟩, ⟨0, 0⟩⟩, []⟩ : Compiler) (.int 2) =
      .ok ⟨[.integer 1, .integer 2], [⟨[], 0, []⟩],
        ⟨[0, 0, 0, 0, 0, 1], ⟨0, 3⟩, ⟨0, 0⟩⟩, []⟩ := by
    simp [compileExpr, Compiler.addConstant, Compiler.emit, make,
      opWidths, u16bytes, u8byte, opConstant, opJump, opJumpNotTrue,
      opSetGlobal, opGetGlobal, opArray, opHash]
    decide
  exact ⟨(C6_less_than_swaps_operands.1 bareCompiler _ _ (.int 1) (.int 2) h1 h2).1,
    (C6_less_than_swaps_operands.2 "+" opAdd (by simp) bareCompiler _ _
      (.int 1) (.int 2) h3 h4).1⟩

/-- The textual form of a pair's key, the sort key of the Hash case. -/
def keyStr (p : Expr × Expr) : String := exprString p.1

theorem goInsertPair_perm (lt : Expr × Expr → Expr × Expr → Bool)
    (x : Expr × Expr) (l : List (Expr × Expr)) :
    (goInsertPair lt x l).Perm (x :: l) := by
  induction l with
  | nil => exact List.Perm.refl _
  | cons y ys ih =>
    by_cases h : lt x y = true
    · rw [goInsertPair, if_pos h]
    · rw [goInsertPair, if_neg h]
      exact (ih.cons y).trans (List.Perm.swap x y ys)

theorem goSortAux_perm (lt : Expr × Expr → Expr × Expr → Bool)
    (l acc : List (Expr × Expr)) : (goSortAux lt acc l).Perm (acc ++ l) := by
  induction l generalizing acc with
  | nil => simp [goSortAux]
  | cons y ys ih =>
    rw [goSortAux]
    refine (ih (goInsertPair lt y acc)).trans ?_
    refine (((goInsertPair_perm lt y acc)).append_right ys).trans ?_
    exact List.perm_middle.symm

theorem goSortPairs_perm (ps : List (Expr × Expr)) : (goSortPairs ps).Perm ps :=
  goSortAux_perm hashLt ps []

theorem goInsertPair_pairwise (x : Expr × Expr) (l : List (Expr × Expr))
    (h : l.Pairwise (fun a b => ¬ keyStr b < keyStr a)) :
    (goInsertPair hashLt x l).Pairwise (fun a b => ¬ keyStr b < keyStr a) := by
  induction l with
  | nil => simp [goInsertPair]
  | cons y ys ih =>
    rcases List.pairwise_cons.mp h with ⟨hy, hys⟩
    by_cases hlt : hashLt x y = true
    · have hxy : keyStr x < keyStr y := by
        simpa [hashLt, keyStr] using hlt
      rw [goInsertPair, if_pos hlt]
      refine List.pairwise_cons.mpr ⟨?_, h⟩
      intro z hz
      rcases List.mem_cons.mp hz with rfl | hz
      · exact lt_asymm hxy
      · intro hzx
        exact hy z hz (lt_trans hzx hxy)
    · have hxy : ¬ keyStr x < keyStr y := by
        simpa [hashLt, keyStr] using hlt
      rw [goInsertPair, if_neg hlt]
      refine List.pairwise_cons.mpr ⟨?_, ih hys⟩
      intro z hz
      rcases List.mem_cons.mp ((goInsertPair_perm hashLt x ys).mem_iff.mp hz)
        with rfl | hz2
      · exact hxy
      · exact hy z hz2

theorem goSortAux_pairwise (l acc : List (Expr × Expr))
    (h : acc.Pairwise (fun a b => ¬ keyStr b < keyStr a)) :
    (goSortAux hashLt acc l).Pairwise (fun a b => ¬ keyStr b < keyStr a) := by
  induction l generalizing acc with
  | nil => exact h
  | cons y ys ih => exact ih _ (goInsertPair_pairwise y acc h)

theorem goSortPairs_sorted (ps : List (Expr × Expr)) :
    (goSortPairs ps).Pairwise (fun a b => ¬ keyStr b < keyStr a) :=
  goSortAux_pairwise ps [] (List.Pairwise.nil)

/-- C8 (amended): the Hash case sorts the pairs by the keys' textual form
(the sorted list is a permutation of the enumeration order, weakly ascending
in the key string) and then emits `Hash 2n`; when the keys' textual forms are
pairwise DISTINCT the sorted order, and with it the whole compilation, is
identical for any two enumeration orders of the pairs map. -/
theorem C8_hash_deterministic :
    (∀ ps : List (Expr × Expr), (goSortPairs ps).Perm ps
      ∧ (goSortPairs ps).Pairwise (fun a b => ¬ keyStr b < keyStr a))
    ∧ (∀ (ps1 ps2 : List (Expr × Expr)) (c : Compiler), ps1.Perm ps2 →
      ps1.Pairwise (fun a b => keyStr a ≠ keyStr b) →
      compileExpr c (.hash ps1) = compileExpr c (.hash ps2)) := by
  constructor
  · intro ps
    exact ⟨goSortPairs_perm ps, goSortPairs_sorted ps⟩
  · intro ps1 ps2 c hp hnd
    have hsym : Symmetric (fun a b : Expr × Expr => keyStr a ≠ keyStr b) :=
      fun a b h => fun e => h e.symm
    have hperm12 : (goSortPairs ps1).Perm (goSortPairs ps2) :=
      (goSortPairs_perm ps1).trans (hp.trans (goSortPairs_perm ps2).symm)
    have hnd1 : (goSortPairs ps1).Pairwise (fun a b => keyStr a ≠ keyStr b) :=
      ((goSortPairs_perm ps1).pairwise_iff @hsym).mpr hnd
    have hnd2 : (goSortPairs ps2).Pairwise (fun a b => keyStr a ≠ keyStr b) :=
      ((goSortPairs_perm ps2).pairwise_iff @hsym).mpr ((hp.pairwise_iff @hsym).mp hnd)
    have strict : ∀ l : List (Expr × Expr),
        l.Pairwise (fun a b => ¬ keyStr b < keyStr a) →
        l.Pairwise (fun a b => keyStr a ≠ keyStr b) →
        l.Pairwise (fun a b => keyStr a < keyStr b) := by
      intro l hle hne
      exact (hle.and hne).imp (fun hab => lt_of_le_of_ne (not_lt.mp hab.1) hab.2)
    have hs1 := strict _ (goSortPairs_sorted ps1) hnd1
    have hs2 := strict _ (goSortPairs_sorted ps2) hnd2
    haveI : IsAntisymm (Expr × Expr) (fun a b => keyStr a < keyStr b) :=
      ⟨fun a b h1 h2 => absurd (lt_trans h1 h2) (lt_irrefl _)⟩
    have hkey : goSortPairs ps1 = goSortPairs ps2 :=
      List.eq_of_perm_of_sorted hperm12 hs1 hs2
    have hlen : ps1.length = ps2.length := hp.length_eq
    simp [compileExpr, hkey, hlen]

/-- C8 counterexample: the hash literal whose two entries both have the key
textual form "1" (two distinct key expressions in the Go pairs map may print
identically, e.g. the literal written with the key `1` twice).  Two
enumeration orders of the same map compile to different bytecode bundles: the
constant pools differ, so compilation is not independent of the map's
enumeration order. -/
theorem C8_hash_enumeration_order_leaks :
    (compileExpr bareCompiler (.hash [(.int 1, .str "a"), (.int 1, .str "b")])).toOption.map
        Compiler.constants ≠
      (compileExpr bareCompiler (.hash [(.int 1, .str "b"), (.int 1, .str "a")])).toOption.map
        Compiler.constants := by
  have hone : exprString (.int 1) = "1" := by
    simp [exprString]
    rfl
  have hlt : ∀ v1 v2 : Expr, hashLt (.int 1, v1) (.int 1, v2) = false := by
    intro v1 v2
    simp only [hashLt, hone]
    exact decide_eq_false (lt_irrefl _)
  have hsort : ∀ v1 v2 : Expr,
      goSortPairs [(.int 1, v1), (.int 1, v2)] = [(.int 1, v1), (.int 1, v2)] := by
    intro v1 v2
    simp [goSortPairs, goSortAux, goInsertPair, hlt]
  have heval : ∀ v1 v2 : String,
      (compileExpr bareCompiler (.hash [(.int 1, .str v1), (.int 1, .str v2)])).toOption.map
        Compiler.constants = some [.integer 1, .strO v1, .integer 1, .strO v2] := by
    intro v1 v2
    rw [compileExpr, hsort]
    simp [compilePairs, compileExpr, bareCompiler, Compiler.addConstant,
      Compiler.emit, make, opWidths, u16bytes, u8byte, freshScope, opConstant,
      opPop, opJump, opJumpNotTrue, opSetGlobal, opGetGlobal, opArray, opHash,
      opSetLocal, opGetLocal, opGetBuiltin, opGetFreeVar, opCall, opClosure]
    exact ⟨_, rfl, rfl⟩
  rw [heval "a" "b", heval "b" "a"]
  simp

/-- C8 witness: two enumeration orders of a two-entry hash with distinct key
texts ("2" and "1") compile identically. -/
theorem C8_hash_deterministic_witness :
    compileExpr bareCompiler (.hash [(.int 2, .int 1), (.int 1, .int 3)]) =
      compileExpr bareCompiler (.hash [(.int 1, .int 3), (.int 2, .int 1)]) := by
  have hperm : ([(.int 2, .int 1), (.int 1, .int 3)] : List (Expr × Expr)).Perm
      [(.int 1, .int 3), (.int 2, .int 1)] := List.Perm.swap _ _ _
  have h2 : exprString (.int 2) = "2" := by
    simp [exprString]
    rfl
  have h1 : exprString (.int 1) = "1" := by
    simp [exprString]
    rfl
  have hnd : ([(.int 2, .int 1), (.int 1, .int 3)] : List (Expr × Expr)).Pairwise
      (fun a b => keyStr a ≠ keyStr b) := by
    refine List.pairwise_cons.mpr ⟨?_, ?_⟩
    · intro z hz
      rcases List.mem_singleton.mp hz with rfl
      simp [keyStr, h1, h2]
    · simp
  exact C8_hash_deterministic.2 _ _ bareCompiler hperm hnd

theorem listOverwrite_length (r l : List Nat) (i : Nat) :
    (listOverwrite l i r).length = l.length := by
  induction r generalizing l i with
  | nil => rfl
  | cons b bs ih => simp [listOverwrite, ih]

/-- The instruction bytes `loadSymbol` emits for one symbol: the load opcode
matching its scope (the switch default is `GetLocal`) with its index. -/
def loadInstr (sym : Symbol) : List Nat :=
  make (match sym.scope with
    | .global => opGetGlobal
    | .builtin => opGetBuiltin
    | .freeS => opGetFreeVar
    | _ => opGetLocal) [(sym.index : Int)]

theorem loadSymbol_effect (c : Compiler) (sym : Symbol) :
    (c.loadSymbol sym).scope.instructions = c.scope.instructions ++ loadInstr sym
    ∧ (c.loadSymbol sym).constants = c.constants
    ∧ (c.loadSymbol sym).symbolTable = c.symbolTable
    ∧ (c.loadSymbol sym).outerScopes = c.outerScopes := by
  cases h : sym.scope <;>
    simp [Compiler.loadSymbol, h, Compiler.emit, loadInstr]

theorem foldl_loadSymbol_effect (fs : List Symbol) (c : Compiler) :
    (fs.foldl Compiler.loadSymbol c).scope.instructions =
      c.scope.instructions ++ fs.flatMap loadInstr
    ∧ (fs.foldl Compiler.loadSymbol c).constants = c.constants
    ∧ (fs.foldl Compiler.loadSymbol c).symbolTable = c.symbolTable
    ∧ (fs.foldl Compiler.loadSymbol c).outerScopes = c.outerScopes := by
  induction fs generalizing c with
  | nil => simp
  | cons s ss ih =>
    have h1 := loadSymbol_effect c s
    have h2 := ih (c.loadSymbol s)
    refine ⟨?_, ?_, ?_, ?_⟩ <;>
      simp [List.foldl_cons, h2.1, h2.2.1, h2.2.2.1, h2.2.2.2, h1.1, h1.2.1,
        h1.2.2.1, h1.2.2.2, List.append_assoc]

/-- What the FunctionExpression case produces, given the result `cb` of
compiling the body inside the entered scope: the function constant appended
to the pool carries the body instructions after the Pop-to-ReturnValue fixup
and conditional trailing Return, and the enclosing scope receives the free
symbols' loads followed by the `Closure` instruction. -/
theorem compileExpr_fnE_characterization (c : Compiler) (params : List String)
    (body : List Stmt) (cb : Compiler) (sc0 : CompilationScope)
    (rest : List CompilationScope)
    (hb : compileStmts (paramsDefined c.enterScope params) body = .ok cb)
    (hsc : cb.outerScopes = sc0 :: rest) :
    ∃ c1 : Compiler, compileExpr c (.fnE params body) = .ok c1
      ∧ c1.constants = cb.constants ++
          [.compiledFunction
            (let instrs1 := if cb.scope.lastInstruction.opcode = opPop then
                listOverwrite cb.scope.instructions cb.scope.lastInstruction.position
                  [opReturnValue]
              else cb.scope.instructions
             let last1 := if cb.scope.lastInstruction.opcode = opPop then opReturnValue
              else cb.scope.lastInstruction.opcode
             if last1 ≠ opReturnValue then instrs1 ++ [opReturn] else instrs1)
            (currentNumDefinitions cb.symbolTable) params.length]
      ∧ c1.scope.instructions = sc0.instructions ++
          (currentFreeSymbols cb.symbolTable).flatMap loadInstr ++
          make opClosure [(cb.constants.length : Int),
            ((currentFreeSymbols cb.symbolTable).length : Int)] := by
  have hmakeRV : make opReturnValue [] = [opReturnValue] := make_no_operand _ rfl
  have hmakeRet : make opReturn [] = [opReturn] := make_no_operand _ rfl
  simp only [compileExpr, hb]
  by_cases hPop : cb.scope.lastInstruction.opcode = opPop
  · -- Pop replaced in place; last instruction now reads ReturnValue, so no
    -- trailing Return is emitted.
    have hb1 : cb.lastInstructionIs opPop = true := by
      simp [Compiler.lastInstructionIs, hPop]
    have hb2 : cb.replaceLastPopWithReturn.lastInstructionIs opReturnValue = true := by
      simp [Compiler.lastInstructionIs, Compiler.replaceLastPopWithReturn]
    have hleave : cb.replaceLastPopWithReturn.leaveScope =
        some (cb.replaceLastPopWithReturn.scope.instructions,
          ⟨cb.constants, cb.symbolTable.tail, sc0, rest⟩) := by
      simp [Compiler.leaveScope, Compiler.replaceLastPopWithReturn, hsc]
    have hfold := foldl_loadSymbol_effect (currentFreeSymbols cb.symbolTable)
      ⟨cb.constants, cb.symbolTable.tail, sc0, rest⟩
    rw [if_pos hb1, if_neg (by simp [hb2]), hleave]
    refine ⟨_, rfl, ?_, ?_⟩
    · simp [Compiler.emit, Compiler.addConstant,
        Compiler.replaceLastPopWithReturn, hmakeRV, hPop, hfold.2.1]
    · simp [Compiler.emit, Compiler.addConstant,
        Compiler.replaceLastPopWithReturn, hfold.1, hfold.2.1,
        List.append_assoc]
  · have hb1 : cb.lastInstructionIs opPop = false := by
      simp [Compiler.lastInstructionIs, hPop]
    by_cases hRv : cb.scope.lastInstruction.opcode = opReturnValue
    · have hb2 : cb.lastInstructionIs opReturnValue = true := by
        simp [Compiler.lastInstructionIs, hRv]
      have hleave : cb.leaveScope = some (cb.scope.instructions,
          ⟨cb.constants, cb.symbolTable.tail, sc0, rest⟩) := by
        simp [Compiler.leaveScope, hsc]
      have hfold := foldl_loadSymbol_effect (currentFreeSymbols cb.symbolTable)
        ⟨cb.constants, cb.symbolTable.tail, sc0, rest⟩
      have e1 : (if cb.lastInstructionIs opPop = true then
          cb.replaceLastPopWithReturn else cb) = cb :=
        if_neg (fun h => by simp [hb1] at h)
      have e2 : (if ¬ cb.lastInstructionIs opReturnValue = true then
          (cb.emit opReturn []).1 else cb) = cb :=
        if_neg (not_not_intro hb2)
      rw [e1, e2, hleave]
      refine ⟨_, rfl, ?_, ?_⟩
      · simp [Compiler.emit, Compiler.addConstant, hPop, hRv, hfold.2.1,
          opReturnValue, opPop]
      · simp [Compiler.emit, Compiler.addConstant, hfold.1, hfold.2.1,
          List.append_assoc]
    · have hb2 : cb.lastInstructionIs opReturnValue = false := by
        simp [Compiler.lastInstructionIs, hRv]
      have hleave : ((cb.emit opReturn []).1).leaveScope =
          some ((cb.emit opReturn []).1.scope.instructions,
            ⟨cb.constants, cb.symbolTable.tail, sc0, rest⟩) := by
        simp [Compiler.leaveScope, Compiler.emit, hsc]
      have hfold := foldl_loadSymbol_effect (currentFreeSymbols cb.symbolTable)
        ⟨cb.constants, cb.symbolTable.tail, sc0, rest⟩
      have e1 : (if cb.lastInstructionIs opPop = true then
          cb.replaceLastPopWithReturn else cb) = cb :=
        if_neg (fun h => by simp [hb1] at h)
      have e2 : (if ¬ cb.lastInstructionIs opReturnValue = true then
          (cb.emit opReturn []).1 else cb) = (cb.emit opReturn []).1 :=
        if_pos (fun h => by simp [hb2] at h)
      rw [e1, e2, hleave]
      refine ⟨_, rfl, ?_, ?_⟩
      · simp [Compiler.emit, Compiler.addConstant, hPop, hRv, hmakeRet,
          hfold.2.1]
      · simp [Compiler.emit, Compiler.addConstant, hfold.1, hfold.2.1,
          List.append_assoc]

/-- C7: after compiling a function body, when the last emitted instruction is
`Pop` it is replaced in place by `ReturnValue` — same byte position, length
unchanged, bookkeeping updated so the last instruction reads `ReturnValue` —
and a trailing `Return` is appended to the function's instructions exactly
when the last instruction after that step is not `ReturnValue` (part_000
lines 445-454 and 561-573). -/
theorem C7_function_body_return_fixup :
    (∀ cc : Compiler,
      cc.replaceLastPopWithReturn.scope.lastInstruction =
        ⟨opReturnValue, cc.scope.lastInstruction.position⟩
      ∧ cc.replaceLastPopWithReturn.scope.instructions =
        listOverwrite cc.scope.instructions cc.scope.lastInstruction.position
          [opReturnValue]
      ∧ cc.replaceLastPopWithReturn.scope.instructions.length =
        cc.scope.instructions.length)
    ∧ (∀ (c : Compiler) (params : List String) (body : List Stmt)
       (cb : Compiler) (sc0 : CompilationScope) (rest : List CompilationScope),
      compileStmts (paramsDefined c.enterScope params) body = .ok cb →
      cb.outerScopes = sc0 :: rest →
      ∃ c1 : Compiler, compileExpr c (.fnE params body) = .ok c1
        ∧ c1.constants.getLast? = some (.compiledFunction
            (let instrs1 := if cb.scope.lastInstruction.opcode = opPop then
                listOverwrite cb.scope.instructions cb.scope.lastInstruction.position
                  [opReturnValue]
              else cb.scope.instructions
             let last1 := if cb.scope.lastInstruction.opcode = opPop then opReturnValue
              else cb.scope.lastInstruction.opcode
             if last1 ≠ opReturnValue then instrs1 ++ [opReturn] else instrs1)
            (currentNumDefinitions cb.symbolTable) params.length)) := by
  constructor
  · intro cc
    refine ⟨rfl, ?_, ?_⟩
    · simp [Compiler.replaceLastPopWithReturn, make_no_operand opReturnValue rfl]
    · simp [Compiler.replaceLastPopWithReturn, listOverwrite_length]
  · intro c params body cb sc0 rest hb hsc
    obtain ⟨c1, hok, hconst, _⟩ :=
      compileExpr_fnE_characterization c params body cb sc0 rest hb hsc
    refine ⟨c1, hok, ?_⟩
    rw [hconst]
    exact List.getLast?_concat _

/-- C7 witness: `fn() { 5 }` — the body compiles to `Constant 0; Pop`, the
`Pop` byte at position 3 is replaced in place by `ReturnValue` (byte 26), and
no trailing `Return` is appended. -/
theorem C7_function_body_return_fixup_witness :
    bareCompiler.replaceLastPopWithReturn.scope.lastInstruction =
      ⟨opReturnValue, bareCompiler.scope.lastInstruction.position⟩
    ∧ ∃ c1 : Compiler,
      compileExpr bareCompiler (.fnE [] [.exprS (.int 5)]) = .ok c1
      ∧ c1.constants.getLast? = some (.compiledFunction [0, 0, 0, 26] 0 0) := by
  refine ⟨(C7_function_body_return_fixup.1 bareCompiler).1, ?_⟩
  have hb : compileStmts (paramsDefined bareCompiler.enterScope [])
      [.exprS (.int 5)] = .ok ⟨[.integer 5], [⟨[], 0, []⟩, ⟨[], 0, []⟩],
        ⟨[0, 0, 0, 1], ⟨1, 3⟩, ⟨0, 0⟩⟩, [freshScope]⟩ := by
    simp [compileStmts, compileStmt, compileExpr, paramsDefined,
      Compiler.enterScope, bareCompiler, Compiler.addConstant, Compiler.emit,
      make, opWidths, u16bytes, u8byte, freshScope, opConstant, opPop, opJump,
      opJumpNotTrue, opSetGlobal, opGetGlobal, opArray, opHash, opSetLocal,
      opGetLocal, opGetBuiltin, opGetFreeVar, opCall, opClosure]
    decide
  obtain ⟨c1, hok, hlast⟩ := C7_function_body_return_fixup.2 bareCompiler []
    [.exprS (.int 5)] _ freshScope [] hb rfl
  refine ⟨c1, hok, ?_⟩
  rw [hlast]
  decide

/-- C1: compiling a function literal appends to the *enclosing* scope exactly
the load instruction of each captured free symbol, in the order of the
captured-symbol list, immediately followed by `Closure fn_idx free_count`
(part_000 lines 456-470); each load is encoded from the captured symbol's own
scope and index (GetGlobal/GetBuiltin/GetFreeVar, default GetLocal — part_000
lines 499-510); and the symbol table's promotion (modelled from spec §4.F)
stores the *original* enclosing-scope symbol in the captured list while the
inner scope receives the Free-indexed symbol, so the emitted loads use the
enclosing-scope binding and never the inner Free-index. -/
theorem C1_closure_capture_loads :
    (∀ (c : Compiler) (params : List String) (body : List Stmt)
       (cb : Compiler) (sc0 : CompilationScope) (rest : List CompilationScope),
      compileStmts (paramsDefined c.enterScope params) body = .ok cb →
      cb.outerScopes = sc0 :: rest →
      ∃ c1 : Compiler, compileExpr c (.fnE params body) = .ok c1
        ∧ c1.scope.instructions = sc0.instructions ++
            (currentFreeSymbols cb.symbolTable).flatMap loadInstr ++
            make opClosure [(cb.constants.length : Int),
              ((currentFreeSymbols cb.symbolTable).length : Int)])
    ∧ (∀ (f : Frame) (outer : SymbolTable) (name : String) (s : Symbol)
        (outer2 : SymbolTable),
      storeLookup f.store name = none →
      resolve outer name = some (s, outer2) →
      s.scope ≠ .global → s.scope ≠ .builtin →
      resolve (f :: outer) name =
        some (⟨s.name, .freeS, f.freeSymbols.length⟩,
          (⟨storeInsert f.store s.name ⟨s.name, .freeS, f.freeSymbols.length⟩,
            f.numDefinitions, f.freeSymbols ++ [s]⟩ : Frame) :: outer2)) := by
  constructor
  · intro c params body cb sc0 rest hb hsc
    obtain ⟨c1, hok, _, hinstr⟩ :=
      compileExpr_fnE_characterization c params body cb sc0 rest hb hsc
    exact ⟨c1, hok, hinstr⟩
  · intro f outer name s outer2 hnone hres hg hbuiltin
    simp [resolve, hnone, hres, defineFree, hg, hbuiltin]

/-- C1 witness: compiling `fn(y) { x }` inside a scope whose enclosing
function defines the local `x`: the inner body uses `GetFreeVar 0` while the
enclosing scope emits `GetLocal 0` — the original enclosing binding — right
before `Closure 0 1`. -/
theorem C1_closure_capture_loads_witness :
    ∃ c1 : Compiler,
      compileExpr (⟨[], [⟨[("x", ⟨"x", .localS, 0⟩)], 1, []⟩, ⟨[], 0, []⟩],
          freshScope, [freshScope]⟩ : Compiler)
        (.fnE ["y"] [.exprS (.ident "x")]) = .ok c1
      ∧ c1.scope.instructions = [19, 0, 28, 0, 0, 1] := by
  have hb : compileStmts (paramsDefined
      (Compiler.enterScope ⟨[], [⟨[("x", ⟨"x", .localS, 0⟩)], 1, []⟩,
        ⟨[], 0, []⟩], freshScope, [freshScope]⟩) ["y"])
      [.exprS (.ident "x")] = .ok
        ⟨[], [⟨[("y", ⟨"y", .localS, 0⟩), ("x", ⟨"x", .freeS, 0⟩)], 1,
            [⟨"x", .localS, 0⟩]⟩,
          ⟨[("x", ⟨"x", .localS, 0⟩)], 1, []⟩, ⟨[], 0, []⟩],
          ⟨[21, 0, 1], ⟨1, 2⟩, ⟨21, 0⟩⟩, [freshScope, freshScope]⟩ := by
    simp [compileStmts, compileStmt, compileExpr, paramsDefined,
      Compiler.enterScope, define, resolve, storeLookup, storeInsert,
      defineFree, Compiler.loadSymbol, Compiler.addConstant, Compiler.emit,
      make, opWidths, u16bytes, u8byte, freshScope, opConstant, opPop, opJump,
      opJumpNotTrue, opSetGlobal, opGetGlobal, opArray, opHash, opSetLocal,
      opGetLocal, opGetBuiltin, opGetFreeVar, opCall, opClosure]
    decide
  obtain ⟨c1, hok, hinstr⟩ := C1_closure_capture_loads.1 _ ["y"]
    [.exprS (.ident "x")] _ freshScope [freshScope] hb rfl
  refine ⟨c1, hok, ?_⟩
  rw [hinstr]
  decide

/-! ## Single-step unfoldings of the `Run` loop, used for the stack-balance
analysis of expression programs. -/

theorem runFrom_constant_step (constants : List VObj) (instrs : List Nat)
    (s : VmState) (ip b1 b2 : Nat) (cv : VObj)
    (h0 : instrs[ip]? = some opConstant) (h1 : instrs[ip + 1]? = some b1)
    (h2 : instrs[ip + 2]? = some b2)
    (hc : constants[b1 * 256 + b2]? = some cv) :
    runFrom constants instrs s ip =
      match s.push cv with
      | .ok s1 => runFrom constants instrs s1 (ip + 3)
      | .error e => .error e := by
  have hlt : ip < instrs.length := (List.getElem?_eq_some_iff.mp h0).1
  have hget : instrs.get ⟨ip, hlt⟩ = opConstant := by
    rcases List.getElem?_eq_some_iff.mp h0 with ⟨h, hv⟩
    simpa using hv
  rw [runFrom]
  simp only [hlt, dif_pos, hget, if_true]
  rw [h1, h2]
  simp [hc]

theorem runFrom_binop_step (constants : List VObj) (instrs : List Nat)
    (s : VmState) (ip b : Nat) (h0 : instrs[ip]? = some b)
    (hb : b = opAdd ∨ b = opSub ∨ b = opMul ∨ b = opDiv) :
    runFrom constants instrs s ip =
      match executeBinaryIntegerOperation b s with
      | .ok s1 => runFrom constants instrs s1 (ip + 1)
      | .error e => .error e := by
  have hlt : ip < instrs.length := (List.getElem?_eq_some_iff.mp h0).1
  have hget : instrs[ip] = b := by
    rcases List.getElem?_eq_some_iff.mp h0 with ⟨h, hv⟩
    exact hv
  rcases hb with h | h | h | h <;> subst h <;>
    (rw [runFrom]; simp [hlt, hget, opConstant, opAdd, opSub, opMul, opDiv,
      opEqual, opNotEqual, opGreaterThan, opTrue, opFalse, opPop])

theorem runFrom_cmp_step (constants : List VObj) (instrs : List Nat)
    (s : VmState) (ip b : Nat) (h0 : instrs[ip]? = some b)
    (hb : b = opEqual ∨ b = opNotEqual ∨ b = opGreaterThan) :
    runFrom constants instrs s ip =
      match executeComparison b s with
      | .ok s1 => runFrom constants instrs s1 (ip + 1)
      | .error e => .error e := by
  have hlt : ip < instrs.length := (List.getElem?_eq_some_iff.mp h0).1
  have hget : instrs[ip] = b := by
    rcases List.getElem?_eq_some_iff.mp h0 with ⟨h, hv⟩
    exact hv
  rcases hb with h | h | h <;> subst h <;>
    (rw [runFrom]; simp [hlt, hget, opConstant, opAdd, opSub, opMul, opDiv,
      opEqual, opNotEqual, opGreaterThan, opTrue, opFalse, opPop])

theorem runFrom_bool_step (constants : List VObj) (instrs : List Nat)
    (s : VmState) (ip b : Nat) (h0 : instrs[ip]? = some b)
    (hb : b = opTrue ∨ b = opFalse) :
    runFrom constants instrs s ip =
      match s.push (.boolean (b = opTrue)) with
      | .ok s1 => runFrom constants instrs s1 (ip + 1)
      | .error e => .error e := by
  have hlt : ip < instrs.length := (List.getElem?_eq_some_iff.mp h0).1
  have hget : instrs[ip] = b := by
    rcases List.getElem?_eq_some_iff.mp h0 with ⟨h, hv⟩
    exact hv
  rcases hb with h | h <;> subst h <;>
    (rw [runFrom]; simp [hlt, hget, opConstant, opAdd, opSub, opMul, opDiv,
      opEqual, opNotEqual, opGreaterThan, opTrue, opFalse, opPop])

theorem runFrom_pop_step (constants : List VObj) (instrs : List Nat)
    (s : VmState) (ip : Nat) (h0 : instrs[ip]? = some opPop) :
    runFrom constants instrs s ip =
      match s.pop with
      | .ok vs => runFrom constants instrs vs.2 (ip + 1)
      | .error e => .error e := by
  have hlt : ip < instrs.length := (List.getElem?_eq_some_iff.mp h0).1
  have hget : instrs.get ⟨ip, hlt⟩ = opPop := by
    rcases List.getElem?_eq_some_iff.mp h0 with ⟨h, hv⟩
    simpa using hv
  rw [runFrom]
  simp only [hlt, dif_pos, hget, if_true]
  rcases h : s.pop with e | vs
  · rfl
  · rfl

theorem getElem?_append_mid (pre l post : List Nat) (i : Nat) (h : i < l.length) :
    (pre ++ (l ++ post))[pre.length + i]? = l[i]? := by
  rw [List.getElem?_append_right (by omega)]
  simp only [Nat.add_sub_cancel_left]
  exact List.getElem?_append_left h

/-- The expression fragment of integer, string and boolean literals combined
with the supported infix operators: expressions whose compiled code uses only
the opcodes this VM implements. -/
def arithOnly : Expr → Bool
  | .int _ => true
  | .str _ => true
  | .boolE _ => true
  | .inf op l r =>
    (op = "<" || op = "+" || op = "-" || op = "*" || op = "/" || op = "==" ||
      op = "!=" || op = ">") && arithOnly l && arithOnly r
  | _ => false

/-- The constants the compiler appends for a fragment expression, in order. -/
def constsOf : Expr → List VObj
  | .int v => [.integer v]
  | .str v => [.strO v]
  | .inf op l r =>
    if op = "<" then constsOf r ++ constsOf l else constsOf l ++ constsOf r
  | _ => []

/-- The code the compiler emits for a fragment expression when the constant
pool already holds `k` constants. -/
def codeOf : Expr → Nat → List Nat
  | .int _, k => make opConstant [(k : Int)]
  | .str _, k => make opConstant [(k : Int)]
  | .boolE b, _ => if b then [opTrue] else [opFalse]
  | .inf op l r, k =>
    if op = "<" then
      codeOf r k ++ (codeOf l (k + (constsOf r).length) ++ [opGreaterThan])
    else
      codeOf l k ++ (codeOf r (k + (constsOf l).length) ++
        [if op = "+" then opAdd else if op = "-" then opSub
         else if op = "*" then opMul else if op = "/" then opDiv
         else if op = "==" then opEqual else if op = "!=" then opNotEqual
         else opGreaterThan])
  | _, _ => []

theorem esize_pos (e : Expr) : 0 < esize e := by
  cases e with
  | ifE c t eb => cases eb <;> simp only [esize] <;> omega
  | ident n => simp [esize]
  | int v => simp [esize]
  | str v => simp [esize]
  | boolE b => simp [esize]
  | pre o r => simp only [esize]; omega
  | inf o l r => simp only [esize]; omega
  | fnE p b => simp only [esize]; omega
  | call f a => simp only [esize]; omega
  | arr es => simp only [esize]; omega
  | hash ps => simp only [esize]; omega
  | idx a i => simp only [esize]; omega

/-- Every fragment constant is a non-nil runtime value. -/
theorem constsOf_nonnil : ∀ (n : Nat) (e : Expr), esize e ≤ n →
    ∀ v ∈ constsOf e, v ≠ VObj.nilO := by
  intro n
  induction n with
  | zero =>
    intro e he
    exact absurd he (by have := esize_pos e; omega)
  | succ n ih =>
    intro e he v hv
    cases e with
    | int w => simp [constsOf] at hv; subst hv; simp
    | str w => simp [constsOf] at hv; subst hv; simp
    | inf op l r =>
      simp only [constsOf] at hv
      have hle : esize l ≤ n ∧ esize r ≤ n := by
        simp [esize] at he
        omega
      by_cases hop : op = "<"
      · rw [if_pos hop] at hv
        rcases List.mem_append.mp hv with h | h
        · exact ih r hle.2 v h
        · exact ih l hle.1 v h
      · rw [if_neg hop] at hv
        rcases List.mem_append.mp hv with h | h
        · exact ih l hle.1 v h
        · exact ih r hle.2 v h
    | _ => simp [constsOf] at hv

/-- On the fragment, the compiler succeeds and appends exactly `constsOf e`
to the pool and `codeOf e` (indexed from the current pool size) to the
current scope, leaving everything else alone. -/
theorem compile_arith : ∀ (n : Nat) (e : Expr), esize e ≤ n →
    arithOnly e = true → ∀ c : Compiler, ∃ c1 : Compiler,
    compileExpr c e = .ok c1
    ∧ c1.constants = c.constants ++ constsOf e
    ∧ c1.scope.instructions = c.scope.instructions ++ codeOf e c.constants.length
    ∧ c1.symbolTable = c.symbolTable
    ∧ c1.outerScopes = c.outerScopes := by
  intro n
  induction n with
  | zero =>
    intro e he
    exact absurd he (by have := esize_pos e; omega)
  | succ n ih =>
    intro e he ha c
    cases e with
    | int v =>
      refine ⟨((c.addConstant (.integer v)).1.emit opConstant
        [((c.addConstant (.integer v)).2 : Int)]).1, ?_, ?_, ?_, rfl, rfl⟩
      · simp only [compileExpr]
      · simp [Compiler.addConstant, Compiler.emit, constsOf]
      · simp [Compiler.addConstant, Compiler.emit, codeOf]
    | str v =>
      refine ⟨((c.addConstant (.strO v)).1.emit opConstant
        [((c.addConstant (.strO v)).2 : Int)]).1, ?_, ?_, ?_, rfl, rfl⟩
      · simp only [compileExpr]
      · simp [Compiler.addConstant, Compiler.emit, constsOf]
      · simp [Compiler.addConstant, Compiler.emit, codeOf]
    | boolE b =>
      cases b
      · refine ⟨(c.emit opFalse []).1, ?_, ?_, ?_, rfl, rfl⟩
        · simp [compileExpr]
        · simp [Compiler.emit, constsOf]
        · simp [Compiler.emit, codeOf, make_no_operand opFalse rfl]
      · refine ⟨(c.emit opTrue []).1, ?_, ?_, ?_, rfl, rfl⟩
        · simp [compileExpr]
        · simp [Compiler.emit, constsOf]
        · simp [Compiler.emit, codeOf, make_no_operand opTrue rfl]
    | inf op l r =>
      have hsz : esize l ≤ n ∧ esize r ≤ n := by
        simp [esize] at he
        omega
      simp only [arithOnly, Bool.and_eq_true, Bool.or_eq_true,
        decide_eq_true_eq] at ha
      obtain ⟨⟨hops, hal⟩, har⟩ := ha
      by_cases hop : op = "<"
      · subst hop
        obtain ⟨c1, hok1, hco1, hin1, hst1, hos1⟩ := ih r hsz.2 har c
        obtain ⟨c2, hok2, hco2, hin2, hst2, hos2⟩ := ih l hsz.1 hal c1
        refine ⟨(c2.emit opGreaterThan []).1, ?_, ?_, ?_, ?_, ?_⟩
        · simp [compileExpr, hok1, hok2]
        · simp [Compiler.emit, hco2, hco1, constsOf]
        · simp [Compiler.emit, hin2, hin1, hco1, codeOf,
            make_no_operand opGreaterThan rfl]
        · simp [Compiler.emit, hst2, hst1]
        · simp [Compiler.emit, hos2, hos1]
      · obtain ⟨c1, hok1, hco1, hin1, hst1, hos1⟩ := ih l hsz.1 hal c
        obtain ⟨c2, hok2, hco2, hin2, hst2, hos2⟩ := ih r hsz.2 har c1
        have hops2 : op = "+" ∨ op = "-" ∨ op = "*" ∨ op = "/" ∨ op = "==" ∨
            op = "!=" ∨ op = ">" := by tauto
        have hw : opWidths (if op = "+" then opAdd else if op = "-" then opSub
            else if op = "*" then opMul else if op = "/" then opDiv
            else if op = "==" then opEqual else if op = "!=" then opNotEqual
            else opGreaterThan) = [] := by
          rcases hops2 with h | h | h | h | h | h | h <;> subst h <;> decide
        refine ⟨(c2.emit (if op = "+" then opAdd else if op = "-" then opSub
          else if op = "*" then opMul else if op = "/" then opDiv
          else if op = "==" then opEqual else if op = "!=" then opNotEqual
          else opGreaterThan) []).1, ?_, ?_, ?_, ?_, ?_⟩
        · simp only [compileExpr]
          rw [if_neg hop]
          simp [hok1, hok2]
          split_ifs <;> first | rfl | tauto
        · simp [Compiler.emit, hco2, hco1, constsOf, hop]
        · simp [Compiler.emit, hin2, hin1, hco1, make_no_operand _ hw,
            codeOf, hop]
        · simp [Compiler.emit, hst2, hst1]
        · simp [Compiler.emit, hos2, hos1]
    | _ => simp [arithOnly] at ha

theorem push_at (st : List VObj) (n : Nat) (o : VObj)
    (hlen : st.length = StackSize) (hn : n < StackSize) :
    VmState.push ⟨st, n⟩ o = .ok ⟨st.set n o, n + 1⟩ := by
  simp [VmState.push, hlen, hn, Nat.not_le.mpr hn]

/-- Executing one of the four arithmetic opcodes on a stack holding two
values at `n` and `n+1` either overwrites slot `n` with an Integer result
and drops `sp` to `n+1`, or fails. -/
theorem binop_outcome (op : Nat) (st : List VObj) (n : Nat) (vl vr : VObj)
    (hlen : st.length = StackSize) (hn : n + 2 ≤ StackSize)
    (hl : st[n]? = some vl) (hr : st[n + 1]? = some vr) :
    (∃ res : Int, executeBinaryIntegerOperation op ⟨st, n + 2⟩ =
        .ok ⟨st.set n (.integer res), n + 1⟩)
    ∨ (∃ err, executeBinaryIntegerOperation op ⟨st, n + 2⟩ = .error err) := by
  have hpop1 : VmState.pop ⟨st, n + 2⟩ = .ok (vr, ⟨st, n + 1⟩) := by
    simp [VmState.pop, hr]
  have hpop2 : VmState.pop ⟨st, n + 1⟩ = .ok (vl, ⟨st, n⟩) := by
    simp [VmState.pop, hl]
  by_cases hvl : ∃ a, vl = VObj.integer a
  · obtain ⟨a, rfl⟩ := hvl
    by_cases hvr : ∃ b, vr = VObj.integer b
    · obtain ⟨b, rfl⟩ := hvr
      by_cases hz : op = opDiv
      · by_cases hb0 : b = 0
        · subst hz hb0
          right
          exact ⟨.panicDivByZero, by simp [executeBinaryIntegerOperation,
            hpop1, hpop2, assertInteger, goIntBinop, bind, Except.bind,
            opAdd, opSub, opMul, opDiv]⟩
        · subst hz
          left
          refine ⟨wrap64 (a.tdiv b), ?_⟩
          simp [executeBinaryIntegerOperation, hpop1, hpop2, assertInteger,
            goIntBinop, bind, Except.bind, hb0, opAdd, opSub, opMul, opDiv,
            push_at st n _ hlen (by omega)]
      · left
        refine ⟨if op = opAdd then wrap64 (a + b) else if op = opSub then
          wrap64 (a - b) else if op = opMul then wrap64 (a * b) else 0, ?_⟩
        simp only [executeBinaryIntegerOperation, hpop1, hpop2, assertInteger,
          goIntBinop, bind, Except.bind, if_neg hz]
        split_ifs <;> simp [push_at st n _ hlen (by omega)]
    · right
      have hassert : assertInteger vr = .error .panicNotInteger := by
        cases vr with
        | integer b => exact absurd ⟨b, rfl⟩ hvr
        | nilO => rfl
        | boolean x => rfl
        | strO x => rfl
        | compiledFunction x y z => rfl
      have hL : assertInteger (VObj.integer a) = .ok a := rfl
      exact ⟨.panicNotInteger, by simp [executeBinaryIntegerOperation, hpop1,
        hpop2, hL, hassert, bind, Except.bind]⟩
  · right
    have hassert : assertInteger vl = .error .panicNotInteger := by
      cases vl with
      | integer a => exact absurd ⟨a, rfl⟩ hvl
      | nilO => rfl
      | boolean x => rfl
      | strO x => rfl
      | compiledFunction x y z => rfl
    exact ⟨.panicNotInteger, by simp [executeBinaryIntegerOperation, hpop1,
      hpop2, hassert, bind, Except.bind]⟩

/-- Executing a comparison opcode on two non-nil operands either overwrites
slot `n` with a Boolean and drops `sp` to `n+1`, or fails. -/
theorem cmp_outcome (op : Nat) (st : List VObj) (n : Nat) (vl vr : VObj)
    (hlen : st.length = StackSize) (hn : n + 2 ≤ StackSize)
    (hl : st[n]? = some vl) (hr : st[n + 1]? = some vr)
    (hvl : vl ≠ .nilO) (hvr : vr ≠ .nilO) :
    (∃ res : Bool, executeComparison op ⟨st, n + 2⟩ =
        .ok ⟨st.set n (.boolean res), n + 1⟩)
    ∨ (∃ err, executeComparison op ⟨st, n + 2⟩ = .error err) := by
  have hpop1 : VmState.pop ⟨st, n + 2⟩ = .ok (vr, ⟨st, n + 1⟩) := by
    simp [VmState.pop, hr]
  have hpop2 : VmState.pop ⟨st, n + 1⟩ = .ok (vl, ⟨st, n⟩) := by
    simp [VmState.pop, hl]
  have hpush : ∀ res : Bool, VmState.push ⟨st, n⟩ (.boolean res) =
      .ok ⟨st.set n (.boolean res), n + 1⟩ :=
    fun res => push_at st n _ hlen (by omega)
  cases vl with
  | nilO => exact absurd rfl hvl
  | integer a =>
    cases vr with
    | nilO => exact absurd rfl hvr
    | integer b =>
      by_cases h1 : op = opEqual
      · subst h1
        exact Or.inl ⟨decide (a = b), by simp [executeComparison, hpop1, hpop2,
          vtype, bind, Except.bind, pure, Except.pure,
          executeIntegerComparison, assertInteger, hpush, opEqual]⟩
      · by_cases h2 : op = opNotEqual
        · subst h2
          exact Or.inl ⟨!decide (a = b), by simp [executeComparison, hpop1,
            hpop2, vtype, bind, Except.bind, pure, Except.pure,
            executeIntegerComparison, assertInteger, hpush, opEqual,
            opNotEqual]⟩
        · by_cases h3 : op = opGreaterThan
          · subst h3
            exact Or.inl ⟨decide (b < a), by simp [executeComparison, hpop1,
              hpop2, vtype, bind, Except.bind, pure, Except.pure,
              executeIntegerComparison, assertInteger, hpush, opEqual,
              opNotEqual, opGreaterThan]⟩
          · exact Or.inr ⟨.unexpectedOperation op, by simp [executeComparison,
              hpop1, hpop2, vtype, bind, Except.bind, pure, Except.pure,
              executeIntegerComparison, assertInteger, h1, h2, h3]⟩
    | boolean y =>
      exact Or.inr ⟨.cmpMismatch .integerT .booleanT, by simp [executeComparison,
        hpop1, hpop2, vtype, bind, Except.bind, pure, Except.pure]⟩
    | strO y =>
      exact Or.inr ⟨.cmpMismatch .integerT .stringT, by simp [executeComparison,
        hpop1, hpop2, vtype, bind, Except.bind, pure, Except.pure]⟩
    | compiledFunction y1 y2 y3 =>
      exact Or.inr ⟨.cmpMismatch .integerT .functionT, by simp [executeComparison,
        hpop1, hpop2, vtype, bind, Except.bind, pure, Except.pure]⟩
  | boolean x =>
    cases vr with
    | nilO => exact absurd rfl hvr
    | integer b =>
      exact Or.inr ⟨.cmpMismatch .booleanT .integerT, by simp [executeComparison,
        hpop1, hpop2, vtype, bind, Except.bind, pure, Except.pure]⟩
    | boolean y =>
      by_cases h1 : op = opEqual
      · subst h1
        exact Or.inl ⟨decide (x = y), by simp [executeComparison, hpop1, hpop2,
          vtype, bind, Except.bind, pure, Except.pure,
          executeBooleanComparison, assertBoolean, hpush, opEqual]⟩
      · by_cases h2 : op = opNotEqual
        · subst h2
          exact Or.inl ⟨!decide (x = y), by simp [executeComparison, hpop1,
            hpop2, vtype, bind, Except.bind, pure, Except.pure,
            executeBooleanComparison, assertBoolean, hpush, opEqual,
            opNotEqual]⟩
        · exact Or.inr ⟨.unexpectedOperation op, by simp [executeComparison,
            hpop1, hpop2, vtype, bind, Except.bind, pure, Except.pure,
            executeBooleanComparison, assertBoolean, h1, h2]⟩
    | strO y =>
      exact Or.inr ⟨.cmpMismatch .booleanT .stringT, by simp [executeComparison,
        hpop1, hpop2, vtype, bind, Except.bind, pure, Except.pure]⟩
    | compiledFunction y1 y2 y3 =>
      exact Or.inr ⟨.cmpMismatch .booleanT .functionT, by simp [executeComparison,
        hpop1, hpop2, vtype, bind, Except.bind, pure, Except.pure]⟩
  | strO x =>
    cases vr with
    | nilO => exact absurd rfl hvr
    | integer b =>
      exact Or.inr ⟨.cmpMismatch .stringT .integerT, by simp [executeComparison,
        hpop1, hpop2, vtype, bind, Except.bind, pure, Except.pure]⟩
    | boolean y =>
      exact Or.inr ⟨.cmpMismatch .stringT .booleanT, by simp [executeComparison,
        hpop1, hpop2, vtype, bind, Except.bind, pure, Except.pure]⟩
    | strO y =>
      exact Or.inr ⟨.unableToCompare .stringT .stringT, by simp [executeComparison,
        hpop1, hpop2, vtype, bind, Except.bind, pure, Except.pure]⟩
    | compiledFunction y1 y2 y3 =>
      exact Or.inr ⟨.cmpMismatch .stringT .functionT, by simp [executeComparison,
        hpop1, hpop2, vtype, bind, Except.bind, pure, Except.pure]⟩
  | compiledFunction x1 x2 x3 =>
    cases vr with
    | nilO => exact absurd rfl hvr
    | integer b =>
      exact Or.inr ⟨.cmpMismatch .functionT .integerT, by simp [executeComparison,
        hpop1, hpop2, vtype, bind, Except.bind, pure, Except.pure]⟩
    | boolean y =>
      exact Or.inr ⟨.cmpMismatch .functionT .booleanT, by simp [executeComparison,
        hpop1, hpop2, vtype, bind, Except.bind, pure, Except.pure]⟩
    | strO y =>
      exact Or.inr ⟨.cmpMismatch .functionT .stringT, by simp [executeComparison,
        hpop1, hpop2, vtype, bind, Except.bind, pure, Except.pure]⟩
    | compiledFunction y1 y2 y3 =>
      exact Or.inr ⟨.unableToCompare .functionT .functionT, by
        simp [executeComparison, hpop1, hpop2, vtype, bind, Except.bind, pure,
          Except.pure]⟩

/-- Running the compiled code of an arithmetic-fragment expression from its
first byte either pushes exactly one non-nil value on top of the stack —
leaving every slot below the old stack pointer untouched — and continues
after the fragment's last byte, or aborts with an error. -/
theorem execArith : ∀ (n : Nat) (e : Expr), esize e ≤ n → arithOnly e = true →
    ∀ (K : List VObj) (pre post instrs : List Nat) (s : VmState) (k : Nat),
    instrs = pre ++ (codeOf e k ++ post) →
    (∀ v ∈ K, v ≠ VObj.nilO) →
    k + (constsOf e).length ≤ K.length →
    s.stack.length = StackSize →
    (∃ (v : VObj) (s1 : VmState),
        runFrom K instrs s pre.length =
          runFrom K instrs s1 (pre.length + (codeOf e k).length)
        ∧ v ≠ VObj.nilO ∧ s1.stack.length = StackSize ∧ s1.sp = s.sp + 1
        ∧ s1.sp ≤ StackSize
        ∧ (∀ i, i < s.sp → s1.stack[i]? = s.stack[i]?)
        ∧ s1.stack[s.sp]? = some v)
    ∨ (∃ err, runFrom K instrs s pre.length = .error err) := by
  intro n
  induction n with
  | zero =>
    intro e he
    exact absurd he (by have := esize_pos e; omega)
  | succ n ih =>
    intro e he ha K pre post instrs s k hinstrs hK hkK hslen
    have hidx : (((k : Int).emod 65536).toNat) / 256 * 256 +
        ((k : Int).emod 256).toNat ≤ k := by
      have e1 : (k : Int).emod 65536 = (k : Int) % 65536 := rfl
      have e2 : (k : Int).emod 256 = (k : Int) % 256 := rfl
      rw [e1, e2]
      omega
    have finishPush : ∀ (w : VObj), w ≠ VObj.nilO → ∀ L : Nat,
        (runFrom K instrs s pre.length = match s.push w with
          | .ok s1 => runFrom K instrs s1 (pre.length + L)
          | .error e => .error e) →
        (∃ (v : VObj) (s1 : VmState),
            runFrom K instrs s pre.length =
              runFrom K instrs s1 (pre.length + L)
            ∧ v ≠ VObj.nilO ∧ s1.stack.length = StackSize ∧ s1.sp = s.sp + 1
            ∧ s1.sp ≤ StackSize
            ∧ (∀ i, i < s.sp → s1.stack[i]? = s.stack[i]?)
            ∧ s1.stack[s.sp]? = some v)
        ∨ (∃ err, runFrom K instrs s pre.length = .error err) := by
      intro w hw L hstep
      by_cases hsp : s.sp < StackSize
      · have hpush : s.push w = .ok ⟨s.stack.set s.sp w, s.sp + 1⟩ := by
          simp [VmState.push, Nat.not_le.mpr hsp, hslen, hsp]
        rw [hpush] at hstep
        exact Or.inl ⟨w, ⟨s.stack.set s.sp w, s.sp + 1⟩, hstep, hw,
          by simp [hslen], rfl, show s.sp + 1 ≤ StackSize by omega,
          fun i hi => List.getElem?_set_ne (by omega),
          List.getElem?_set_self (by omega)⟩
      · have hpush : s.push w = .error .stackOverflow := by
          simp [VmState.push, Nat.not_lt.mp hsp]
        rw [hpush] at hstep
        exact Or.inr ⟨.stackOverflow, hstep⟩
    have constCase : ∀ ce : Expr, codeOf ce k = make opConstant [(k : Int)] →
        (constsOf ce).length = 1 →
        instrs = pre ++ (codeOf ce k ++ post) →
        k + (constsOf ce).length ≤ K.length →
        (∃ (v : VObj) (s1 : VmState),
            runFrom K instrs s pre.length =
              runFrom K instrs s1 (pre.length + (codeOf ce k).length)
            ∧ v ≠ VObj.nilO ∧ s1.stack.length = StackSize ∧ s1.sp = s.sp + 1
            ∧ s1.sp ≤ StackSize
            ∧ (∀ i, i < s.sp → s1.stack[i]? = s.stack[i]?)
            ∧ s1.stack[s.sp]? = some v)
        ∨ (∃ err, runFrom K instrs s pre.length = .error err) := by
      intro ce hcode hclen hin hkc
      have hmk : codeOf ce k = [opConstant, (((k : Int).emod 65536).toNat) / 256,
          ((k : Int).emod 256).toNat] := by
        rw [hcode]
        simp [make, opWidths, u16bytes]
      set b1 : Nat := (((k : Int).emod 65536).toNat) / 256 with hb1def
      set b2 : Nat := ((k : Int).emod 256).toNat with hb2def
      have hltK : b1 * 256 + b2 < K.length := by omega
      have hby0 : instrs[pre.length]? = some opConstant := by
        have h := getElem?_append_mid pre (codeOf ce k) post 0 (by rw [hmk]; simp)
        rw [hin]
        simpa [hmk] using h
      have hby1 : instrs[pre.length + 1]? = some b1 := by
        have h := getElem?_append_mid pre (codeOf ce k) post 1 (by rw [hmk]; simp)
        rw [hin]
        simpa [hmk] using h
      have hby2 : instrs[pre.length + 2]? = some b2 := by
        have h := getElem?_append_mid pre (codeOf ce k) post 2 (by rw [hmk]; simp)
        rw [hin]
        simpa [hmk] using h
      have hstep := runFrom_constant_step K instrs s pre.length b1 b2
        (K[b1 * 256 + b2]) hby0 hby1 hby2 (List.getElem?_eq_getElem hltK)
      have hnn : K[b1 * 256 + b2] ≠ VObj.nilO := hK _ (List.getElem_mem hltK)
      have h3 : (codeOf ce k).length = 3 := by rw [hmk]; rfl
      rw [h3]
      exact finishPush _ hnn 3 hstep
    cases e with
    | ident name => exact absurd ha (by simp [arithOnly])
    | pre o rr => exact absurd ha (by simp [arithOnly])
    | ifE c t eb => exact absurd ha (by simp [arithOnly])
    | fnE p b => exact absurd ha (by simp [arithOnly])
    | call f a => exact absurd ha (by simp [arithOnly])
    | arr es => exact absurd ha (by simp [arithOnly])
    | hash ps => exact absurd ha (by simp [arithOnly])
    | idx a i => exact absurd ha (by simp [arithOnly])
    | int v => exact constCase _ rfl rfl hinstrs hkK
    | str v => exact constCase _ rfl rfl hinstrs hkK
    | boolE b =>
      cases b with
      | false =>
        have hby0 : instrs[pre.length]? = some opFalse := by
          have h := getElem?_append_mid pre (codeOf (Expr.boolE false) k) post 0
            (by simp [codeOf])
          rw [hinstrs]
          simpa [codeOf] using h
        have hstep := runFrom_bool_step K instrs s pre.length opFalse hby0
          (Or.inr rfl)
        have hL : (codeOf (Expr.boolE false) k).length = 1 := rfl
        rw [hL]
        exact finishPush _ (by simp) 1 hstep
      | true =>
        have hby0 : instrs[pre.length]? = some opTrue := by
          have h := getElem?_append_mid pre (codeOf (Expr.boolE true) k) post 0
            (by simp [codeOf])
          rw [hinstrs]
          simpa [codeOf] using h
        have hstep := runFrom_bool_step K instrs s pre.length opTrue hby0
          (Or.inl rfl)
        have hL : (codeOf (Expr.boolE true) k).length = 1 := rfl
        rw [hL]
        exact finishPush _ (by simp) 1 hstep
    | inf op l r =>
      simp only [arithOnly, Bool.and_eq_true, Bool.or_eq_true,
        decide_eq_true_eq] at ha
      obtain ⟨⟨hop, hal⟩, har⟩ := ha
      have hsl : esize l ≤ n := by
        have h1 := esize_pos r
        simp only [esize] at he
        omega
      have hsr : esize r ≤ n := by
        have h1 := esize_pos l
        simp only [esize] at he
        omega
      have key : ∀ (ea eb : Expr) (cbyte : Nat), esize ea ≤ n → esize eb ≤ n →
          arithOnly ea = true → arithOnly eb = true →
          ((cbyte = opAdd ∨ cbyte = opSub ∨ cbyte = opMul ∨ cbyte = opDiv) ∨
            (cbyte = opEqual ∨ cbyte = opNotEqual ∨ cbyte = opGreaterThan)) →
          codeOf (Expr.inf op l r) k =
            codeOf ea k ++ (codeOf eb (k + (constsOf ea).length) ++ [cbyte]) →
          (constsOf (Expr.inf op l r)).length =
            (constsOf ea).length + (constsOf eb).length →
          (∃ (v : VObj) (s1 : VmState),
              runFrom K instrs s pre.length =
                runFrom K instrs s1
                  (pre.length + (codeOf (Expr.inf op l r) k).length)
              ∧ v ≠ VObj.nilO ∧ s1.stack.length = StackSize ∧ s1.sp = s.sp + 1
              ∧ s1.sp ≤ StackSize
              ∧ (∀ i, i < s.sp → s1.stack[i]? = s.stack[i]?)
              ∧ s1.stack[s.sp]? = some v)
          ∨ (∃ err, runFrom K instrs s pre.length = .error err) := by
        intro ea eb cbyte hsa hsb haa hab hcb hcode hclen
        have hin1 : instrs = pre ++ (codeOf ea k ++
            ((codeOf eb (k + (constsOf ea).length) ++ [cbyte]) ++ post)) := by
          rw [hinstrs, hcode]
          simp [List.append_assoc]
        rcases ih ea hsa haa K pre
            ((codeOf eb (k + (constsOf ea).length) ++ [cbyte]) ++ post)
            instrs s k hin1 hK (by omega) hslen with
          ⟨va, s1, hrun1, hva, hlen1, hsp1, hsple1, hpres1, htop1⟩ | ⟨err, herr⟩
        · have hin2 : instrs = (pre ++ codeOf ea k) ++
              (codeOf eb (k + (constsOf ea).length) ++ ([cbyte] ++ post)) := by
            rw [hinstrs, hcode]
            simp [List.append_assoc]
          rcases ih eb hsb hab K (pre ++ codeOf ea k) ([cbyte] ++ post)
              instrs s1 (k + (constsOf ea).length) hin2 hK (by omega) hlen1 with
            ⟨vb, s2, hrun2, hvb, hlen2, hsp2, hsple2, hpres2, htop2⟩ | ⟨err, herr⟩
          · simp only [List.length_append] at hrun2
            have hbyte : instrs[pre.length + (codeOf ea k).length +
                (codeOf eb (k + (constsOf ea).length)).length]? = some cbyte := by
              have h := getElem?_append_mid
                ((pre ++ codeOf ea k) ++ codeOf eb (k + (constsOf ea).length))
                [cbyte] post 0 (by simp)
              rw [show instrs = ((pre ++ codeOf ea k) ++
                  codeOf eb (k + (constsOf ea).length)) ++ ([cbyte] ++ post) by
                rw [hinstrs, hcode]
                simp [List.append_assoc]]
              simpa only [List.length_append, Nat.add_zero,
                List.getElem?_cons_zero] using h
            obtain ⟨st2, sp2⟩ := s2
            have hsp2w : sp2 = s1.sp + 1 := hsp2
            have hlen2w : st2.length = StackSize := hlen2
            have hsple2w : sp2 ≤ StackSize := hsple2
            have hpres2w : ∀ i, i < s1.sp → st2[i]? = s1.stack[i]? := hpres2
            have htop2w : st2[s1.sp]? = some vb := htop2
            have hspeq : sp2 = s.sp + 2 := by omega
            subst hspeq
            have htopa : st2[s.sp]? = some va := by
              rw [hpres2w s.sp (by omega)]
              exact htop1
            have htopb : st2[s.sp + 1]? = some vb := by
              rw [← hsp1]
              exact htop2w
            have hexec : ∃ EXR : Except VmError VmState,
                (runFrom K instrs ⟨st2, s.sp + 2⟩
                    (pre.length + (codeOf ea k).length +
                      (codeOf eb (k + (constsOf ea).length)).length) =
                  match EXR with
                  | .ok s3 => runFrom K instrs s3
                      (pre.length + (codeOf ea k).length +
                        (codeOf eb (k + (constsOf ea).length)).length + 1)
                  | .error e => .error e)
                ∧ ((∃ w : VObj, w ≠ VObj.nilO ∧
                      EXR = .ok ⟨st2.set s.sp w, s.sp + 1⟩)
                  ∨ (∃ err, EXR = .error err)) := by
              rcases hcb with hcb | hcb
              · refine ⟨executeBinaryIntegerOperation cbyte ⟨st2, s.sp + 2⟩,
                  runFrom_binop_step K instrs ⟨st2, s.sp + 2⟩ _ cbyte hbyte hcb,
                  ?_⟩
                rcases binop_outcome cbyte st2 s.sp va vb hlen2w (by omega)
                    htopa htopb with ⟨res, hres⟩ | ⟨err2, herr2⟩
                · exact Or.inl ⟨.integer res, by simp, hres⟩
                · exact Or.inr ⟨err2, herr2⟩
              · refine ⟨executeComparison cbyte ⟨st2, s.sp + 2⟩,
                  runFrom_cmp_step K instrs ⟨st2, s.sp + 2⟩ _ cbyte hbyte hcb,
                  ?_⟩
                rcases cmp_outcome cbyte st2 s.sp va vb hlen2w (by omega)
                    htopa htopb hva hvb with ⟨res, hres⟩ | ⟨err2, herr2⟩
                · exact Or.inl ⟨.boolean res, by simp, hres⟩
                · exact Or.inr ⟨err2, herr2⟩
            obtain ⟨EXR, hstep, hout⟩ := hexec
            have hidx2 : pre.length + (codeOf (Expr.inf op l r) k).length =
                pre.length + (codeOf ea k).length +
                  (codeOf eb (k + (constsOf ea).length)).length + 1 := by
              have hlc := congrArg List.length hcode
              simp only [List.length_append, List.length_cons,
                List.length_nil] at hlc
              omega
            rcases hout with ⟨w, hw, hEX⟩ | ⟨err2, hEX⟩
            · rw [hEX] at hstep
              left
              refine ⟨w, ⟨st2.set s.sp w, s.sp + 1⟩, ?_, hw, by simp [hlen2w],
                rfl, show s.sp + 1 ≤ StackSize by omega, ?_, ?_⟩
              · rw [hidx2, hrun1, hrun2]
                exact hstep
              · intro i hi
                show (st2.set s.sp w)[i]? = s.stack[i]?
                rw [List.getElem?_set_ne (by omega), hpres2w i (by omega),
                  hpres1 i hi]
              · show (st2.set s.sp w)[s.sp]? = some w
                exact List.getElem?_set_self (by omega)
            · rw [hEX] at hstep
              right
              refine ⟨err2, ?_⟩
              rw [hrun1, hrun2]
              exact hstep
          · right
            refine ⟨err, ?_⟩
            rw [hrun1]
            simpa using herr
        · exact Or.inr ⟨err, herr⟩
      have hop2 : op = "<" ∨ op = "+" ∨ op = "-" ∨ op = "*" ∨ op = "/" ∨
          op = "==" ∨ op = "!=" ∨ op = ">" := by tauto
      rcases hop2 with h | h | h | h | h | h | h | h
      · subst h
        exact key r l opGreaterThan hsr hsl har hal
          (Or.inr (Or.inr (Or.inr rfl))) (by simp [codeOf]) (by simp [constsOf])
      · subst h
        exact key l r opAdd hsl hsr hal har (Or.inl (Or.inl rfl))
          (by simp [codeOf]) (by simp [constsOf])
      · subst h
        exact key l r opSub hsl hsr hal har (Or.inl (Or.inr (Or.inl rfl)))
          (by simp [codeOf]) (by simp [constsOf])
      · subst h
        exact key l r opMul hsl hsr hal har
          (Or.inl (Or.inr (Or.inr (Or.inl rfl))))
          (by simp [codeOf]) (by simp [constsOf])
      · subst h
        exact key l r opDiv hsl hsr hal har
          (Or.inl (Or.inr (Or.inr (Or.inr rfl))))
          (by simp [codeOf]) (by simp [constsOf])
      · subst h
        exact key l r opEqual hsl hsr hal har (Or.inr (Or.inl rfl))
          (by simp [codeOf]) (by simp [constsOf])
      · subst h
        exact key l r opNotEqual hsl hsr hal har (Or.inr (Or.inr (Or.inl rfl)))
          (by simp [codeOf]) (by simp [constsOf])
      · subst h
        exact key l r opGreaterThan hsl hsr hal har
          (Or.inr (Or.inr (Or.inr rfl)))
          (by simp [codeOf]) (by simp [constsOf])

/-- C5 (amended): for a program that is a single expression statement over
the implemented expression fragment — integer, string and boolean literals
combined with the supported infix operators, whose compiled code uses only
opcodes this VM handles — if compilation succeeds and `Run` returns without
error, the final stack pointer is 0 and `LastPoppedStackElement` reads a
defined, non-nil value from `stack[sp]`. -/
theorem C5_expression_statement_stack_discipline (e : Expr) (bc : Bytecode)
    (sFinal : VmState) (harith : arithOnly e = true)
    (hc : compileProgram [Stmt.exprS e] = .ok bc)
    (hr : runMain bc.constants bc.instructions = .ok sFinal) :
    sFinal.sp = 0 ∧
      ∃ v, lastPoppedStackElement sFinal = some v ∧ v ≠ VObj.nilO := by
  obtain ⟨c1, hok, hconsts, hinstr, hsym, houter⟩ :=
    compile_arith (esize e) e le_rfl harith newCompiler
  simp only [newCompiler, freshScope, List.nil_append, List.length_nil]
    at hconsts hinstr
  have hm : make opPop [] = [opPop] := make_no_operand opPop rfl
  have hcp : compileProgram [Stmt.exprS e] =
      .ok ⟨c1.scope.instructions ++ [opPop], c1.constants⟩ := by
    simp [compileProgram, compileStmts, compileStmt, hok, Compiler.emit, hm]
  rw [hcp] at hc
  simp only [Except.ok.injEq] at hc
  subst hc
  have hr2 : runFrom c1.constants (c1.scope.instructions ++ [opPop]) vmNew 0 =
      .ok sFinal := hr
  rw [hconsts, hinstr] at hr2
  rcases execArith (esize e) e le_rfl harith (constsOf e) [] [opPop]
      (codeOf e 0 ++ [opPop]) vmNew 0 (by simp)
      (constsOf_nonnil (esize e) e le_rfl) (by simp) (by simp [vmNew]) with
    ⟨v, s1, hrun, hv, hlen1, hsp1, hsple1, hpres1, htop1⟩ | ⟨err, herr⟩
  · simp only [List.length_nil, Nat.zero_add] at hrun
    have hsp1w : s1.sp = 1 := hsp1
    have htop1w : s1.stack[0]? = some v := htop1
    have hpopByte : (codeOf e 0 ++ [opPop])[(codeOf e 0).length]? =
        some opPop := by
      rw [List.getElem?_append_right (le_refl _)]
      simp
    have hpop := runFrom_pop_step (constsOf e) (codeOf e 0 ++ [opPop]) s1
      (codeOf e 0).length hpopByte
    have hpopped : s1.pop = .ok (v, ⟨s1.stack, 0⟩) := by
      simp [VmState.pop, hsp1w, htop1w]
    rw [hpopped] at hpop
    have hend : runFrom (constsOf e) (codeOf e 0 ++ [opPop]) ⟨s1.stack, 0⟩
        ((codeOf e 0).length + 1) = .ok ⟨s1.stack, 0⟩ :=
      runFrom_past_end _ _ _ _ (by simp)
    have hfin : (Except.ok ⟨s1.stack, 0⟩ : Except VmError VmState) =
        .ok sFinal := by
      rw [← hr2, hrun, hpop]
      exact hend.symm
    simp only [Except.ok.injEq] at hfin
    subst hfin
    exact ⟨rfl, v, htop1w, hv⟩
  · simp only [List.length_nil] at herr
    rw [herr] at hr2
    exact absurd hr2 (by simp)

/-- The start-up symbol table evaluates to one global frame holding the six
built-ins. -/
theorem newSymbolTable_eval : newSymbolTable =
    [⟨[("len", ⟨"len", .builtin, 0⟩), ("first", ⟨"first", .builtin, 1⟩),
       ("last", ⟨"last", .builtin, 2⟩), ("rest", ⟨"rest", .builtin, 3⟩),
       ("push", ⟨"push", .builtin, 4⟩), ("puts", ⟨"puts", .builtin, 5⟩)],
      0, []⟩] := rfl

set_option maxRecDepth 4000 in
/-- C5 witness: the program `5 + 7;` compiles, runs to completion, and the
amended stack-discipline property holds for its final state. -/
theorem C5_expression_statement_stack_discipline_witness :
    arithOnly (Expr.inf "+" (Expr.int 5) (Expr.int 7)) = true
    ∧ compileProgram [Stmt.exprS (Expr.inf "+" (Expr.int 5) (Expr.int 7))] =
        Except.ok ⟨[0, 0, 0, 0, 0, 1, 2, 1], [VObj.integer 5, VObj.integer 7]⟩
    ∧ runMain [VObj.integer 5, VObj.integer 7] [0, 0, 0, 0, 0, 1, 2, 1] =
        Except.ok ⟨(((List.replicate StackSize VObj.nilO).set 0
            (VObj.integer 5)).set 1 (VObj.integer 7)).set 0
            (VObj.integer 12), 0⟩
    ∧ (⟨(((List.replicate StackSize VObj.nilO).set 0 (VObj.integer 5)).set 1
            (VObj.integer 7)).set 0 (VObj.integer 12), 0⟩ : VmState).sp = 0
    ∧ ∃ v, lastPoppedStackElement
          ⟨(((List.replicate StackSize VObj.nilO).set 0 (VObj.integer 5)).set 1
            (VObj.integer 7)).set 0 (VObj.integer 12), 0⟩ = some v
        ∧ v ≠ VObj.nilO := by
  have harith : arithOnly (Expr.inf "+" (Expr.int 5) (Expr.int 7)) = true := by
    decide
  have hcomp : compileProgram [Stmt.exprS (Expr.inf "+" (Expr.int 5)
      (Expr.int 7))] =
      Except.ok ⟨[0, 0, 0, 0, 0, 1, 2, 1],
        [VObj.integer 5, VObj.integer 7]⟩ := by
    simp [compileProgram, compileStmts, compileStmt, compileExpr,
      Compiler.addConstant, Compiler.emit, make, opWidths, u16bytes, u8byte,
      freshScope, newCompiler, newSymbolTable, opConstant, opPop, opAdd,
      opJump, opJumpNotTrue, opSetGlobal, opGetGlobal, opArray, opHash,
      opSetLocal, opGetLocal, opGetBuiltin, opGetFreeVar, opCall, opClosure]
    decide
  have t1 : runFrom [VObj.integer 5, VObj.integer 7] [0, 0, 0, 0, 0, 1, 2, 1]
      vmNew 0 = runFrom [VObj.integer 5, VObj.integer 7]
      [0, 0, 0, 0, 0, 1, 2, 1]
      ⟨(List.replicate StackSize VObj.nilO).set 0 (VObj.integer 5), 1⟩ 3 := by
    rw [runFrom_constant_step [VObj.integer 5, VObj.integer 7]
        [0, 0, 0, 0, 0, 1, 2, 1] vmNew 0 0 0 (VObj.integer 5) rfl rfl rfl rfl,
      show VmState.push vmNew (VObj.integer 5) = Except.ok
          ⟨(List.replicate StackSize VObj.nilO).set 0 (VObj.integer 5), 1⟩ from
        push_at _ 0 _ (by simp only [List.length_set, List.length_replicate]) (by decide)]
  have t2 : runFrom [VObj.integer 5, VObj.integer 7] [0, 0, 0, 0, 0, 1, 2, 1]
      ⟨(List.replicate StackSize VObj.nilO).set 0 (VObj.integer 5), 1⟩ 3 =
      runFrom [VObj.integer 5, VObj.integer 7] [0, 0, 0, 0, 0, 1, 2, 1]
      ⟨((List.replicate StackSize VObj.nilO).set 0 (VObj.integer 5)).set 1
        (VObj.integer 7), 2⟩ 6 := by
    rw [runFrom_constant_step [VObj.integer 5, VObj.integer 7]
        [0, 0, 0, 0, 0, 1, 2, 1]
        ⟨(List.replicate StackSize VObj.nilO).set 0 (VObj.integer 5), 1⟩
        3 0 1 (VObj.integer 7) rfl rfl rfl rfl,
      show VmState.push
          ⟨(List.replicate StackSize VObj.nilO).set 0 (VObj.integer 5), 1⟩
          (VObj.integer 7) = Except.ok
          ⟨((List.replicate StackSize VObj.nilO).set 0 (VObj.integer 5)).set 1
            (VObj.integer 7), 2⟩ from
        push_at _ 1 _ (by simp only [List.length_set, List.length_replicate]) (by decide)]
  have hl0 : (((List.replicate StackSize VObj.nilO).set 0
      (VObj.integer 5)).set 1 (VObj.integer 7))[0]? = some (VObj.integer 5) := by
    rw [List.getElem?_set_ne (by decide)]
    exact List.getElem?_set_self (by simp only [List.length_set, List.length_replicate]; decide)
  have hl1 : (((List.replicate StackSize VObj.nilO).set 0
      (VObj.integer 5)).set 1 (VObj.integer 7))[1]? = some (VObj.integer 7) :=
    List.getElem?_set_self (by simp only [List.length_set, List.length_replicate]; decide)
  have hpopA : VmState.pop ⟨((List.replicate StackSize VObj.nilO).set 0
      (VObj.integer 5)).set 1 (VObj.integer 7), 2⟩ =
      .ok (VObj.integer 7, ⟨((List.replicate StackSize VObj.nilO).set 0
        (VObj.integer 5)).set 1 (VObj.integer 7), 1⟩) := by
    simp [VmState.pop, hl1]
  have hpopB : VmState.pop ⟨((List.replicate StackSize VObj.nilO).set 0
      (VObj.integer 5)).set 1 (VObj.integer 7), 1⟩ =
      .ok (VObj.integer 5, ⟨((List.replicate StackSize VObj.nilO).set 0
        (VObj.integer 5)).set 1 (VObj.integer 7), 0⟩) := by
    simp [VmState.pop, hl0]
  have hw : wrap64 12 = 12 := by decide
  have hpushR : VmState.push ⟨((List.replicate StackSize VObj.nilO).set 0
      (VObj.integer 5)).set 1 (VObj.integer 7), 0⟩ (VObj.integer 12) =
      Except.ok ⟨(((List.replicate StackSize VObj.nilO).set 0
        (VObj.integer 5)).set 1 (VObj.integer 7)).set 0 (VObj.integer 12), 1⟩ :=
    push_at _ 0 _ (by simp only [List.length_set, List.length_replicate])
      (by decide)
  have hadd : executeBinaryIntegerOperation opAdd
      ⟨((List.replicate StackSize VObj.nilO).set 0 (VObj.integer 5)).set 1
        (VObj.integer 7), 2⟩ =
      .ok ⟨(((List.replicate StackSize VObj.nilO).set 0 (VObj.integer 5)).set 1
        (VObj.integer 7)).set 0 (VObj.integer 12), 1⟩ := by
    simp [executeBinaryIntegerOperation, hpopA, hpopB, assertInteger,
      goIntBinop, bind, Except.bind, hw, hpushR]
  have t3 : runFrom [VObj.integer 5, VObj.integer 7] [0, 0, 0, 0, 0, 1, 2, 1]
      ⟨((List.replicate StackSize VObj.nilO).set 0 (VObj.integer 5)).set 1
        (VObj.integer 7), 2⟩ 6 =
      runFrom [VObj.integer 5, VObj.integer 7] [0, 0, 0, 0, 0, 1, 2, 1]
      ⟨(((List.replicate StackSize VObj.nilO).set 0 (VObj.integer 5)).set 1
        (VObj.integer 7)).set 0 (VObj.integer 12), 1⟩ 7 := by
    rw [runFrom_binop_step [VObj.integer 5, VObj.integer 7]
        [0, 0, 0, 0, 0, 1, 2, 1]
        ⟨((List.replicate StackSize VObj.nilO).set 0 (VObj.integer 5)).set 1
          (VObj.integer 7), 2⟩ 6 opAdd rfl (Or.inl rfl), hadd]
  have hl2 : ((((List.replicate StackSize VObj.nilO).set 0
      (VObj.integer 5)).set 1 (VObj.integer 7)).set 0 (VObj.integer 12))[0]? =
      some (VObj.integer 12) := List.getElem?_set_self (by simp only [List.length_set, List.length_replicate]; decide)
  have hpopC : VmState.pop ⟨(((List.replicate StackSize VObj.nilO).set 0
      (VObj.integer 5)).set 1 (VObj.integer 7)).set 0 (VObj.integer 12), 1⟩ =
      .ok (VObj.integer 12, ⟨(((List.replicate StackSize VObj.nilO).set 0
        (VObj.integer 5)).set 1 (VObj.integer 7)).set 0
        (VObj.integer 12), 0⟩) := by
    simp [VmState.pop, hl2]
  have t4 : runFrom [VObj.integer 5, VObj.integer 7] [0, 0, 0, 0, 0, 1, 2, 1]
      ⟨(((List.replicate StackSize VObj.nilO).set 0 (VObj.integer 5)).set 1
        (VObj.integer 7)).set 0 (VObj.integer 12), 1⟩ 7 =
      runFrom [VObj.integer 5, VObj.integer 7] [0, 0, 0, 0, 0, 1, 2, 1]
      ⟨(((List.replicate StackSize VObj.nilO).set 0 (VObj.integer 5)).set 1
        (VObj.integer 7)).set 0 (VObj.integer 12), 0⟩ 8 := by
    rw [runFrom_pop_step [VObj.integer 5, VObj.integer 7]
        [0, 0, 0, 0, 0, 1, 2, 1]
        ⟨(((List.replicate StackSize VObj.nilO).set 0 (VObj.integer 5)).set 1
          (VObj.integer 7)).set 0 (VObj.integer 12), 1⟩ 7 rfl, hpopC]
  have t5 : runFrom [VObj.integer 5, VObj.integer 7] [0, 0, 0, 0, 0, 1, 2, 1]
      ⟨(((List.replicate StackSize VObj.nilO).set 0 (VObj.integer 5)).set 1
        (VObj.integer 7)).set 0 (VObj.integer 12), 0⟩ 8 =
      .ok ⟨(((List.replicate StackSize VObj.nilO).set 0 (VObj.integer 5)).set 1
        (VObj.integer 7)).set 0 (VObj.integer 12), 0⟩ :=
    runFrom_past_end _ _ _ _ (by decide)
  have hrun : runMain [VObj.integer 5, VObj.integer 7]
      [0, 0, 0, 0, 0, 1, 2, 1] =
      Except.ok ⟨(((List.replicate StackSize VObj.nilO).set 0
        (VObj.integer 5)).set 1 (VObj.integer 7)).set 0
        (VObj.integer 12), 0⟩ := by
    simp only [runMain]
    rw [t1, t2, t3, t4, t5]
  have hmain := C5_expression_statement_stack_discipline
    (Expr.inf "+" (Expr.int 5) (Expr.int 7))
    ⟨[0, 0, 0, 0, 0, 1, 2, 1], [VObj.integer 5, VObj.integer 7]⟩
    ⟨(((List.replicate StackSize VObj.nilO).set 0 (VObj.integer 5)).set 1
      (VObj.integer 7)).set 0 (VObj.integer 12), 0⟩ harith hcomp hrun
  exact ⟨harith, hcomp, hrun, hmain.1, hmain.2⟩

set_option maxRecDepth 4000 in
/-- C5 counterexample: the single expression statement `fn(x, y) { x }(1, 2)`
compiles, and `Run` finishes without any error — the `Closure` and `Call`
bytes are not handled by this VM's switch and are skipped, after which an
operand byte is decoded as `Add` — but the final stack pointer is 1, not 0,
so the claimed stack discipline fails for general expression programs that
compile and run without error. -/
theorem C5_call_leaves_nonzero_sp :
    compileProgram [Stmt.exprS (Expr.call (Expr.fnE ["x", "y"]
        [Stmt.exprS (Expr.ident "x")]) [Expr.int 1, Expr.int 2])] =
      Except.ok ⟨[28, 0, 0, 0, 0, 0, 1, 0, 0, 2, 25, 2, 1],
        [VObj.compiledFunction [19, 0, 26] 2 2, VObj.integer 1,
          VObj.integer 2]⟩
    ∧ (runMain
        [VObj.compiledFunction [19, 0, 26] 2 2, VObj.integer 1, VObj.integer 2]
        [28, 0, 0, 0, 0, 0, 1, 0, 0, 2, 25, 2, 1]).map VmState.sp =
      Except.ok 1 := by
  constructor
  · simp [compileProgram, compileStmts, compileStmt, compileExpr,
      compileExprList, paramsDefined, Compiler.enterScope, Compiler.leaveScope,
      Compiler.lastInstructionIs, Compiler.replaceLastPopWithReturn,
      listOverwrite, currentFreeSymbols, currentNumDefinitions, define,
      resolve, storeLookup, storeInsert, defineFree, Compiler.loadSymbol,
      Compiler.addConstant, Compiler.emit, make, opWidths, u16bytes, u8byte,
      freshScope, newCompiler, newSymbolTable_eval, opConstant, opPop, opJump,
      opJumpNotTrue, opSetGlobal, opGetGlobal, opArray, opHash, opSetLocal,
      opGetLocal, opGetBuiltin, opGetFreeVar, opCall, opClosure, opReturn,
      opReturnValue]
    decide
  · have t0 : runFrom [VObj.compiledFunction [19, 0, 26] 2 2, VObj.integer 1,
        VObj.integer 2] [28, 0, 0, 0, 0, 0, 1, 0, 0, 2, 25, 2, 1] vmNew 0 =
        runFrom [VObj.compiledFunction [19, 0, 26] 2 2, VObj.integer 1,
          VObj.integer 2] [28, 0, 0, 0, 0, 0, 1, 0, 0, 2, 25, 2, 1] vmNew 1 :=
      runFrom_skip _ _ _ 0 28 rfl (by decide)
    have t1 : runFrom [VObj.compiledFunction [19, 0, 26] 2 2, VObj.integer 1,
        VObj.integer 2] [28, 0, 0, 0, 0, 0, 1, 0, 0, 2, 25, 2, 1] vmNew 1 =
        runFrom [VObj.compiledFunction [19, 0, 26] 2 2, VObj.integer 1,
          VObj.integer 2] [28, 0, 0, 0, 0, 0, 1, 0, 0, 2, 25, 2, 1]
        ⟨(List.replicate StackSize VObj.nilO).set 0
          (VObj.compiledFunction [19, 0, 26] 2 2), 1⟩ 4 := by
      rw [runFrom_constant_step [VObj.compiledFunction [19, 0, 26] 2 2,
          VObj.integer 1, VObj.integer 2]
          [28, 0, 0, 0, 0, 0, 1, 0, 0, 2, 25, 2, 1] vmNew 1 0 0
          (VObj.compiledFunction [19, 0, 26] 2 2) rfl rfl rfl rfl,
        show VmState.push vmNew (VObj.compiledFunction [19, 0, 26] 2 2) =
            Except.ok ⟨(List.replicate StackSize VObj.nilO).set 0
              (VObj.compiledFunction [19, 0, 26] 2 2), 1⟩ from
          push_at _ 0 _ (by simp only [List.length_set, List.length_replicate]) (by decide)]
    have t2 : runFrom [VObj.compiledFunction [19, 0, 26] 2 2, VObj.integer 1,
        VObj.integer 2] [28, 0, 0, 0, 0, 0, 1, 0, 0, 2, 25, 2, 1]
        ⟨(List.replicate StackSize VObj.nilO).set 0
          (VObj.compiledFunction [19, 0, 26] 2 2), 1⟩ 4 =
        runFrom [VObj.compiledFunction [19, 0, 26] 2 2, VObj.integer 1,
          VObj.integer 2] [28, 0, 0, 0, 0, 0, 1, 0, 0, 2, 25, 2, 1]
        ⟨((List.replicate StackSize VObj.nilO).set 0
          (VObj.compiledFunction [19, 0, 26] 2 2)).set 1 (VObj.integer 1), 2⟩
        7 := by
      rw [runFrom_constant_step [VObj.compiledFunction [19, 0, 26] 2 2,
          VObj.integer 1, VObj.integer 2]
          [28, 0, 0, 0, 0, 0, 1, 0, 0, 2, 25, 2, 1]
          ⟨(List.replicate StackSize VObj.nilO).set 0
            (VObj.compiledFunction [19, 0, 26] 2 2), 1⟩ 4 0 1
          (VObj.integer 1) rfl rfl rfl rfl,
        show VmState.push ⟨(List.replicate StackSize VObj.nilO).set 0
            (VObj.compiledFunction [19, 0, 26] 2 2), 1⟩ (VObj.integer 1) =
            Except.ok ⟨((List.replicate StackSize VObj.nilO).set 0
              (VObj.compiledFunction [19, 0, 26] 2 2)).set 1
              (VObj.integer 1), 2⟩ from
          push_at _ 1 _ (by simp only [List.length_set, List.length_replicate]) (by decide)]
    have t3 : runFrom [VObj.compiledFunction [19, 0, 26] 2 2, VObj.integer 1,
        VObj.integer 2] [28, 0, 0, 0, 0, 0, 1, 0, 0, 2, 25, 2, 1]
        ⟨((List.replicate StackSize VObj.nilO).set 0
          (VObj.compiledFunction [19, 0, 26] 2 2)).set 1 (VObj.integer 1), 2⟩
        7 =
        runFrom [VObj.compiledFunction [19, 0, 26] 2 2, VObj.integer 1,
          VObj.integer 2] [28, 0, 0, 0, 0, 0, 1, 0, 0, 2, 25, 2, 1]
        ⟨(((List.replicate StackSize VObj.nilO).set 0
          (VObj.compiledFunction [19, 0, 26] 2 2)).set 1 (VObj.integer 1)).set 2
          (VObj.integer 2), 3⟩ 10 := by
      rw [runFrom_constant_step [VObj.compiledFunction [19, 0, 26] 2 2,
          VObj.integer 1, VObj.integer 2]
          [28, 0, 0, 0, 0, 0, 1, 0, 0, 2, 25, 2, 1]
          ⟨((List.replicate StackSize VObj.nilO).set 0
            (VObj.compiledFunction [19, 0, 26] 2 2)).set 1
            (VObj.integer 1), 2⟩ 7 0 2 (VObj.integer 2) rfl rfl rfl rfl,
        show VmState.push ⟨((List.replicate StackSize VObj.nilO).set 0
            (VObj.compiledFunction [19, 0, 26] 2 2)).set 1
            (VObj.integer 1), 2⟩ (VObj.integer 2) =
            Except.ok ⟨(((List.replicate StackSize VObj.nilO).set 0
              (VObj.compiledFunction [19, 0, 26] 2 2)).set 1
              (VObj.integer 1)).set 2 (VObj.integer 2), 3⟩ from
          push_at _ 2 _ (by simp only [List.length_set, List.length_replicate]) (by decide)]
    have t4 : runFrom [VObj.compiledFunction [19, 0, 26] 2 2, VObj.integer 1,
        VObj.integer 2] [28, 0, 0, 0, 0, 0, 1, 0, 0, 2, 25, 2, 1]
        ⟨(((List.replicate StackSize VObj.nilO).set 0
          (VObj.compiledFunction [19, 0, 26] 2 2)).set 1 (VObj.integer 1)).set 2
          (VObj.integer 2), 3⟩ 10 =
        runFrom [VObj.compiledFunction [19, 0, 26] 2 2, VObj.integer 1,
          VObj.integer 2] [28, 0, 0, 0, 0, 0, 1, 0, 0, 2, 25, 2, 1]
        ⟨(((List.replicate StackSize VObj.nilO).set 0
          (VObj.compiledFunction [19, 0, 26] 2 2)).set 1 (VObj.integer 1)).set 2
          (VObj.integer 2), 3⟩ 11 :=
      runFrom_skip _ _ _ 10 25 rfl (by decide)
    have hm1 : ((((List.replicate StackSize VObj.nilO).set 0
        (VObj.compiledFunction [19, 0, 26] 2 2)).set 1 (VObj.integer 1)).set 2
        (VObj.integer 2))[1]? = some (VObj.integer 1) := by
      rw [List.getElem?_set_ne (by decide)]
      exact List.getElem?_set_self (by simp only [List.length_set, List.length_replicate]; decide)
    have hm2 : ((((List.replicate StackSize VObj.nilO).set 0
        (VObj.compiledFunction [19, 0, 26] 2 2)).set 1 (VObj.integer 1)).set 2
        (VObj.integer 2))[2]? = some (VObj.integer 2) :=
      List.getElem?_set_self (by simp only [List.length_set, List.length_replicate]; decide)
    have hpop3 : VmState.pop ⟨(((List.replicate StackSize VObj.nilO).set 0
        (VObj.compiledFunction [19, 0, 26] 2 2)).set 1 (VObj.integer 1)).set 2
        (VObj.integer 2), 3⟩ =
        .ok (VObj.integer 2, ⟨(((List.replicate StackSize VObj.nilO).set 0
          (VObj.compiledFunction [19, 0, 26] 2 2)).set 1 (VObj.integer 1)).set 2
          (VObj.integer 2), 2⟩) := by
      simp [VmState.pop, hm2]
    have hpop2 : VmState.pop ⟨(((List.replicate StackSize VObj.nilO).set 0
        (VObj.compiledFunction [19, 0, 26] 2 2)).set 1 (VObj.integer 1)).set 2
        (VObj.integer 2), 2⟩ =
        .ok (VObj.integer 1, ⟨(((List.replicate StackSize VObj.nilO).set 0
          (VObj.compiledFunction [19, 0, 26] 2 2)).set 1 (VObj.integer 1)).set 2
          (VObj.integer 2), 1⟩) := by
      simp [VmState.pop, hm1]
    have hw3 : wrap64 3 = 3 := by decide
    have hpushR : VmState.push ⟨(((List.replicate StackSize VObj.nilO).set 0
        (VObj.compiledFunction [19, 0, 26] 2 2)).set 1 (VObj.integer 1)).set 2
        (VObj.integer 2), 1⟩ (VObj.integer 3) =
        Except.ok ⟨((((List.replicate StackSize VObj.nilO).set 0
          (VObj.compiledFunction [19, 0, 26] 2 2)).set 1 (VObj.integer 1)).set 2
          (VObj.integer 2)).set 1 (VObj.integer 3), 2⟩ :=
      push_at _ 1 _ (by simp only [List.length_set, List.length_replicate])
        (by decide)
    have hadd : executeBinaryIntegerOperation opAdd
        ⟨(((List.replicate StackSize VObj.nilO).set 0
          (VObj.compiledFunction [19, 0, 26] 2 2)).set 1 (VObj.integer 1)).set 2
          (VObj.integer 2), 3⟩ =
        .ok ⟨((((List.replicate StackSize VObj.nilO).set 0
          (VObj.compiledFunction [19, 0, 26] 2 2)).set 1 (VObj.integer 1)).set 2
          (VObj.integer 2)).set 1 (VObj.integer 3), 2⟩ := by
      simp [executeBinaryIntegerOperation, hpop3, hpop2, assertInteger,
        goIntBinop, bind, Except.bind, hw3, hpushR]
    have t5 : runFrom [VObj.compiledFunction [19, 0, 26] 2 2, VObj.integer 1,
        VObj.integer 2] [28, 0, 0, 0, 0, 0, 1, 0, 0, 2, 25, 2, 1]
        ⟨(((List.replicate StackSize VObj.nilO).set 0
          (VObj.compiledFunction [19, 0, 26] 2 2)).set 1 (VObj.integer 1)).set 2
          (VObj.integer 2), 3⟩ 11 =
        runFrom [VObj.compiledFunction [19, 0, 26] 2 2, VObj.integer 1,
          VObj.integer 2] [28, 0, 0, 0, 0, 0, 1, 0, 0, 2, 25, 2, 1]
        ⟨((((List.replicate StackSize VObj.nilO).set 0
          (VObj.compiledFunction [19, 0, 26] 2 2)).set 1 (VObj.integer 1)).set 2
          (VObj.integer 2)).set 1 (VObj.integer 3), 2⟩ 12 := by
      rw [runFrom_binop_step [VObj.compiledFunction [19, 0, 26] 2 2,
          VObj.integer 1, VObj.integer 2]
          [28, 0, 0, 0, 0, 0, 1, 0, 0, 2, 25, 2, 1]
          ⟨(((List.replicate StackSize VObj.nilO).set 0
            (VObj.compiledFunction [19, 0, 26] 2 2)).set 1
            (VObj.integer 1)).set 2 (VObj.integer 2), 3⟩ 11 opAdd rfl
          (Or.inl rfl), hadd]
    have hm3 : (((((List.replicate StackSize VObj.nilO).set 0
        (VObj.compiledFunction [19, 0, 26] 2 2)).set 1 (VObj.integer 1)).set 2
        (VObj.integer 2)).set 1 (VObj.integer 3))[1]? =
        some (VObj.integer 3) := List.getElem?_set_self (by simp only [List.length_set, List.length_replicate]; decide)
    have hpopf : VmState.pop ⟨((((List.replicate StackSize VObj.nilO).set 0
        (VObj.compiledFunction [19, 0, 26] 2 2)).set 1 (VObj.integer 1)).set 2
        (VObj.integer 2)).set 1 (VObj.integer 3), 2⟩ =
        .ok (VObj.integer 3, ⟨((((List.replicate StackSize VObj.nilO).set 0
          (VObj.compiledFunction [19, 0, 26] 2 2)).set 1 (VObj.integer 1)).set 2
          (VObj.integer 2)).set 1 (VObj.integer 3), 1⟩) := by
      simp [VmState.pop, hm3]
    have t6 : runFrom [VObj.compiledFunction [19, 0, 26] 2 2, VObj.integer 1,
        VObj.integer 2] [28, 0, 0, 0, 0, 0, 1, 0, 0, 2, 25, 2, 1]
        ⟨((((List.replicate StackSize VObj.nilO).set 0
          (VObj.compiledFunction [19, 0, 26] 2 2)).set 1 (VObj.integer 1)).set 2
          (VObj.integer 2)).set 1 (VObj.integer 3), 2⟩ 12 =
        runFrom [VObj.compiledFunction [19, 0, 26] 2 2, VObj.integer 1,
          VObj.integer 2] [28, 0, 0, 0, 0, 0, 1, 0, 0, 2, 25, 2, 1]
        ⟨((((List.replicate StackSize VObj.nilO).set 0
          (VObj.compiledFunction [19, 0, 26] 2 2)).set 1 (VObj.integer 1)).set 2
          (VObj.integer 2)).set 1 (VObj.integer 3), 1⟩ 13 := by
      rw [runFrom_pop_step [VObj.compiledFunction [19, 0, 26] 2 2,
          VObj.integer 1, VObj.integer 2]
          [28, 0, 0, 0, 0, 0, 1, 0, 0, 2, 25, 2, 1]
          ⟨((((List.replicate StackSize VObj.nilO).set 0
            (VObj.compiledFunction [19, 0, 26] 2 2)).set 1
            (VObj.integer 1)).set 2 (VObj.integer 2)).set 1
            (VObj.integer 3), 2⟩ 12 rfl, hpopf]
    have t7 : runFrom [VObj.compiledFunction [19, 0, 26] 2 2, VObj.integer 1,
        VObj.integer 2] [28, 0, 0, 0, 0, 0, 1, 0, 0, 2, 25, 2, 1]
        ⟨((((List.replicate StackSize VObj.nilO).set 0
          (VObj.compiledFunction [19, 0, 26] 2 2)).set 1 (VObj.integer 1)).set 2
          (VObj.integer 2)).set 1 (VObj.integer 3), 1⟩ 13 =
        .ok ⟨((((List.replicate StackSize VObj.nilO).set 0
          (VObj.compiledFunction [19, 0, 26] 2 2)).set 1 (VObj.integer 1)).set 2
          (VObj.integer 2)).set 1 (VObj.integer 3), 1⟩ :=
      runFrom_past_end _ _ _ _ (by decide)
    simp only [runMain]
    rw [t0, t1, t2, t3, t4, t5, t6, t7]
    rfl

end Spike
